import Mathlib

/-!
Shallow embedding of the spread-simulation core (crates `spread-sim-core`,
`spread-sim-slug`, `spread-sim-rocket`) and proofs about the claims of its
specification.

Machine integers: Rust `isize` values are embedded as `Int`, `usize` and `u8`
values as `Nat` (all arithmetic performed by the program stays far from any
overflow boundary, and bytes are kept in `0..256` by construction).
Fallible code (Rust panics such as `todo!`, index panics, division by zero and
the panic in `Direction::from_vector`) is embedded with `Option`/`Except`.
-/

namespace SpreadSim

/-- Two-dimensional vector with an x- and a y-component (`model/xy.rs`). -/
structure Xy where
  x : Int
  y : Int
deriving DecidableEq, Repr

namespace Xy

/-- Constructs a vector with the given components (`Xy::new`). -/
def new (x y : Int) : Xy := ⟨x, y⟩

/-- The origin (`Xy::zero`). -/
def zero : Xy := ⟨0, 0⟩

/-- Componentwise addition (`impl ops::Add for Xy`). -/
def add (a b : Xy) : Xy := ⟨a.x + b.x, a.y + b.y⟩

instance : Add Xy := ⟨Xy.add⟩

/-- Limits the value of both components to the specified range (`Xy::limit`). -/
def limit (v : Xy) (min max : Int) : Xy :=
  ⟨Min.min v.x max ⊔ min, Min.min v.y max ⊔ min⟩

end Xy

/-- A direction of movement (`model/direction.rs`). -/
inductive Direction where
  | North | East | South | West
  | NorthEast | NorthWest | SouthEast | SouthWest
  | None
deriving DecidableEq, Repr

namespace Direction

/-- Converts an `Xy` vector into a direction (`Direction::from_vector`); the
Rust function panics on any other vector, embedded as `Option.none`. -/
def from_vector (v : Xy) : Option Direction :=
  if v = Xy.new 0 (-1) then some North
  else if v = Xy.new 1 0 then some East
  else if v = Xy.new 0 1 then some South
  else if v = Xy.new (-1) 0 then some West
  else if v = Xy.new 1 (-1) then some NorthEast
  else if v = Xy.new (-1) (-1) then some NorthWest
  else if v = Xy.new 1 1 then some SouthEast
  else if v = Xy.new (-1) 1 then some SouthWest
  else if v = Xy.new 0 0 then some None
  else Option.none

/-- Converts the direction into an `Xy` vector (`Direction::vector`). -/
def vector : Direction → Xy
  | North => Xy.new 0 (-1)
  | East => Xy.new 1 0
  | South => Xy.new 0 1
  | West => Xy.new (-1) 0
  | NorthEast => Xy.new 1 (-1)
  | NorthWest => Xy.new (-1) (-1)
  | SouthEast => Xy.new 1 1
  | SouthWest => Xy.new (-1) 1
  | None => Xy.new 0 0

/-- Turns a numeric index into a direction (`Direction::from_index`). -/
def from_index (index : Nat) : Direction :=
  match index with
  | 0 => North
  | 1 => East
  | 2 => South
  | 3 => West
  | 4 => NorthEast
  | 5 => NorthWest
  | 6 => SouthEast
  | 7 => SouthWest
  | _ => None

end Direction

/-- A rectangle with derived bottom-right corner (`model/rectangle.rs`). -/
structure Rectangle where
  top_left : Xy
  bottom_right : Xy
  size : Xy
deriving DecidableEq, Repr

namespace Rectangle

/-- Constructs a new rectangle (`Rectangle::new`). -/
def new (top_left size : Xy) : Rectangle :=
  ⟨top_left, top_left + size, size⟩

/-- Checks whether the rectangle contains a cell (`Rectangle::contains`). -/
def contains (r : Rectangle) (cell : Xy) : Bool :=
  r.top_left.x ≤ cell.x && cell.x < r.bottom_right.x &&
  r.top_left.y ≤ cell.y && cell.y < r.bottom_right.y

/-- Integers `a, a+1, ..., b-1` (empty for `b ≤ a`); helper for `cell_list`. -/
def intRange (a b : Int) : List Int :=
  (List.range (b - a).toNat).map (fun i => a + (i : Nat))

/-- The cells yielded by `Rectangle::iter_cells` in order.  The Rust iterator
yields, for each row `y` with `top_left.y ≤ y < bottom_right.y`, first the cell
`(top_left.x, y)` unconditionally and then the cells `(top_left.x+1, y), ...`
while the x-coordinate stays below `bottom_right.x`. -/
def cell_list (r : Rectangle) : List Xy :=
  (intRange r.top_left.y r.bottom_right.y).flatMap fun y =>
    (r.top_left.x :: intRange (r.top_left.x + 1) r.bottom_right.x).map
      fun x => Xy.new x y

end Rectangle

/-- The infection state of a person (`model/infection_state.rs`). -/
inductive State where
  | Susceptible | Infected | Infectious | Recovered
deriving DecidableEq, Repr

/-- Infection state together with the dwell counter
(`model/infection_state.rs`). -/
structure InfectionState where
  state : State
  in_state_since : Nat
deriving DecidableEq, Repr

/-- Simulation parameters (`model/parameters.rs`). -/
structure Parameters where
  cough_threshold : Nat
  breath_threshold : Nat
  acceleration_divisor : Nat
  recovery_time : Nat
  infection_radius : Nat
  incubation_time : Nat
deriving DecidableEq, Repr

/-- An SI²R-statistics query (`model/query.rs`). -/
structure Query where
  area : Rectangle
deriving DecidableEq, Repr

/-- A person on the grid, boundary representation (`model/person_info.rs`). -/
structure PersonInfo where
  name : String
  position : Xy
  seed : List Nat
  infection_state : InfectionState
  direction : Direction
deriving DecidableEq, Repr

/-- SI²R-statistics at some point in time (`model/statistics.rs`). -/
structure Statistics where
  susceptible : Nat
  infected : Nat
  infectious : Nat
  recovered : Nat
deriving DecidableEq, Repr

/-- The population at some point in time (`model/trace.rs`). -/
structure TraceEntry where
  population : List PersonInfo
deriving DecidableEq, Repr

/-- The partition of the grid into patches (`model/partition.rs`). -/
structure Partition where
  x : List Int
  y : List Int
deriving DecidableEq, Repr

/-- A simulation scenario (`model/scenario.rs`).  The Rust `queries` field is a
`HashMap`; it is embedded as an association list of key/query pairs. -/
structure Scenario where
  name : String
  parameters : Parameters
  ticks : Nat
  grid_size : Xy
  trace : Bool
  partition : Partition
  obstacles : List Rectangle
  queries : List (String × Query)
  population : List PersonInfo
deriving DecidableEq, Repr

namespace Scenario

/-- A rectangle representing the grid (`Scenario::grid`). -/
def grid (s : Scenario) : Rectangle := Rectangle.new Xy.zero s.grid_size

/-- Indicates whether a cell is placed on an obstacle (`Scenario::on_obstacle`). -/
def on_obstacle (s : Scenario) (cell : Xy) : Bool :=
  s.obstacles.any fun r => r.contains cell

end Scenario

/-- The output to be computed by the simulator (`model/output.rs`); the
`statistics` `HashMap` is embedded as an association list. -/
structure Output where
  scenario : Scenario
  trace : List TraceEntry
  statistics : List (String × List Statistics)
deriving DecidableEq, Repr

/-!
SHA-256.  The Rust RNG (`simulation/person.rs`, `struct Rng`) advances its
chain state with `digest(&SHA256, ...)` from the external `ring` crate.
Modelled from the spec: the spec's RNG-chain law states `d ← SHA-256(d)`
("repeated SHA-256 of the initial seed matches the per-tick seed advance"),
so the external hash is embedded as the standard FIPS 180-4 SHA-256 over
byte lists (bytes as `Nat` in `0..256`).  The embedding below reproduces the
reference test vector of `test_rng_tick` in `person.rs`.
-/

namespace Sha256

/-- Reduction modulo the 32-bit word size. -/
def wmod (n : Nat) : Nat := n % 4294967296

/-- Right rotation of a 32-bit word by `n` bits. -/
def rotr (n x : Nat) : Nat := wmod ((x >>> n) ||| (x <<< (32 - n)))

/-- Lowercase sigma-0 message-schedule function. -/
def ssig0 (x : Nat) : Nat := (rotr 7 x) ^^^ (rotr 18 x) ^^^ (x >>> 3)

/-- Lowercase sigma-1 message-schedule function. -/
def ssig1 (x : Nat) : Nat := (rotr 17 x) ^^^ (rotr 19 x) ^^^ (x >>> 10)

/-- Uppercase sigma-0 compression function. -/
def bsig0 (x : Nat) : Nat := (rotr 2 x) ^^^ (rotr 13 x) ^^^ (rotr 22 x)

/-- Uppercase sigma-1 compression function. -/
def bsig1 (x : Nat) : Nat := (rotr 6 x) ^^^ (rotr 11 x) ^^^ (rotr 25 x)

/-- Choice function of the compression loop. -/
def chf (x y z : Nat) : Nat := (x &&& y) ^^^ ((x ^^^ 4294967295) &&& z)

/-- Majority function of the compression loop. -/
def maj (x y z : Nat) : Nat := (x &&& y) ^^^ (x &&& z) ^^^ (y &&& z)

/-- Round constants. -/
def K : List Nat :=
  [1116352408, 1899447441, 3049323471, 3921009573, 961987163, 1508970993,
   2453635748, 2870763221, 3624381080, 310598401, 607225278, 1426881987,
   1925078388, 2162078206, 2614888103, 3248222580, 3835390401, 4022224774,
   264347078, 604807628, 770255983, 1249150122, 1555081692, 1996064986,
   2554220882, 2821834349, 2952996808, 3210313671, 3336571891, 3584528711,
   113926993, 338241895, 666307205, 773529912, 1294757372, 1396182291,
   1695183700, 1986661051, 2177026350, 2456956037, 2730485921, 2820302411,
   3259730800, 3345764771, 3516065817, 3600352804, 4094571909, 275423344,
   430227734, 506948616, 659060556, 883997877, 958139571, 1322822218,
   1537002063, 1747873779, 1955562222, 2024104815, 2227730452, 2361852424,
   2428436474, 2756734187, 3204031479, 3329325298]

/-- Initial hash value. -/
def H0 : List Nat :=
  [1779033703, 3144134277, 1013904242, 2773480762,
   1359893119, 2600822924, 528734635, 1541459225]

/-- Big-endian 8-byte encoding of a length in bits. -/
def be8 (n : Nat) : List Nat :=
  [(n >>> 56) % 256, (n >>> 48) % 256, (n >>> 40) % 256, (n >>> 32) % 256,
   (n >>> 24) % 256, (n >>> 16) % 256, (n >>> 8) % 256, n % 256]

/-- Message padding: a `0x80` byte, zeros up to 56 mod 64, then the bit length. -/
def pad (msg : List Nat) : List Nat :=
  let l := msg.length
  let zeros := (120 - ((l + 1) % 64)) % 64
  msg ++ 128 :: List.replicate zeros 0 ++ be8 (8 * l)

/-- Groups a byte list into big-endian 32-bit words. -/
def toWords : List Nat → List Nat
  | b0 :: b1 :: b2 :: b3 :: rest =>
      (b0 <<< 24 ||| b1 <<< 16 ||| b2 <<< 8 ||| b3) :: toWords rest
  | _ => []

/-- Splits a word list into blocks of 16 words (any trailing fragment shorter
than a full block is impossible after padding). -/
def toBlocks : List Nat → List (List Nat)
  | w0 :: w1 :: w2 :: w3 :: w4 :: w5 :: w6 :: w7 ::
    w8 :: w9 :: w10 :: w11 :: w12 :: w13 :: w14 :: w15 :: rest =>
      [w0, w1, w2, w3, w4, w5, w6, w7, w8, w9, w10, w11, w12, w13, w14, w15] ::
        toBlocks rest
  | _ => []

/-- Extends a 16-word block with `n` further scheduled words. -/
def extendW : Nat → List Nat → List Nat
  | 0, ws => ws
  | n + 1, ws =>
      let i := ws.length
      let w := wmod (ssig1 (ws.getD (i - 2) 0) + ws.getD (i - 7) 0 +
                     ssig0 (ws.getD (i - 15) 0) + ws.getD (i - 16) 0)
      extendW n (ws ++ [w])

/-- The 64 compression rounds, driven by the round-constant and schedule lists. -/
def rounds : List Nat → List Nat → List Nat → List Nat
  | k :: ks, w :: ws, [a, b, c, d, e, f, g, h] =>
      let t1 := wmod (h + bsig1 e + chf e f g + k + w)
      let t2 := wmod (bsig0 a + maj a b c)
      rounds ks ws [wmod (t1 + t2), a, b, c, wmod (d + t1), e, f, g]
  | _, _, st => st

/-- Processes one 16-word block, updating the 8-word hash state. -/
def compress (st : List Nat) (block : List Nat) : List Nat :=
  let w := extendW 48 block
  let st' := rounds K w st
  (st.zip st').map fun p => wmod (p.1 + p.2)

/-- Serializes the 8-word hash state as 32 big-endian bytes. -/
def stateBytes (st : List Nat) : List Nat :=
  st.flatMap fun w => [(w >>> 24) % 256, (w >>> 16) % 256, (w >>> 8) % 256, w % 256]

end Sha256

/-- SHA-256 of a byte list, as a byte list of length 32. -/
def sha256 (msg : List Nat) : List Nat :=
  Sha256.stateBytes ((Sha256.toBlocks (Sha256.toWords (Sha256.pad msg))).foldl
    Sha256.compress Sha256.H0)

/-- The two panic sources reachable from `Person::tick`: the division
`unsigned_byte(2) / acceleration_divisor` with a zero divisor in
`Rng::acceleration`, and the explicit panic branch of `Direction::from_vector`. -/
inductive TickPanic where
  | divByZero
  | badVector
deriving DecidableEq, Repr

/-- The deterministic hash-chain random number generator
(`simulation/person.rs`, `struct Rng`). -/
structure Rng where
  parameters : Parameters
  digest : List Nat
deriving DecidableEq, Repr

namespace Rng

/-- Constructs the RNG from a seed (`Rng::new`). -/
def new (seed : List Nat) (parameters : Parameters) : Rng := ⟨parameters, seed⟩

/-- Advances the chain state (`Rng::tick`). -/
def tick (r : Rng) : Rng := ⟨r.parameters, sha256 r.digest⟩

/-- Reads a byte of the chain state as an unsigned integer
(`Rng::unsigned_byte`); in every reachable call the index is in bounds, the
out-of-range default stands in for the Rust index panic. -/
def unsigned_byte (r : Rng) (position : Nat) : Nat := r.digest.getD position 0

/-- Coughing decision (`Rng::is_coughing`). -/
def is_coughing (r : Rng) : Bool :=
  r.unsigned_byte 0 < r.parameters.cough_threshold

/-- Breathing decision (`Rng::is_breathing`). -/
def is_breathing (r : Rng) : Bool :=
  r.unsigned_byte 1 < r.parameters.breath_threshold

/-- Acceleration decision (`Rng::acceleration`); Rust `usize` division panics
on a zero divisor, embedded as `Option.none`. -/
def acceleration (r : Rng) : Option Direction :=
  if r.parameters.acceleration_divisor = 0 then Option.none
  else some (Direction.from_index (r.unsigned_byte 2 / r.parameters.acceleration_divisor))

end Rng

/-- A person (`simulation/person.rs`, `struct Person`). -/
structure Person where
  id : Nat
  parameters : Parameters
  name : String
  position : Xy
  direction : Direction
  infection_state : InfectionState
  rng : Rng
deriving DecidableEq, Repr

instance : Inhabited Person :=
  ⟨⟨0, ⟨0, 0, 0, 0, 0, 0⟩, "", Xy.zero, Direction.None,
    ⟨State.Susceptible, 0⟩, ⟨⟨0, 0, 0, 0, 0, 0⟩, []⟩⟩⟩

namespace Person

/-- Constructs a person from its boundary data (`Person::new`). -/
def new (id : Nat) (info : PersonInfo) (parameters : Parameters) : Person :=
  ⟨id, parameters, info.name, info.position, info.direction,
   info.infection_state, Rng.new info.seed parameters⟩

/-- The current state (`Person::state`). -/
def state (p : Person) : State := p.infection_state.state

/-- Sets the state and resets the dwell counter (`Person::set_state`). -/
def set_state (p : Person) (s : State) : Person :=
  { p with infection_state := ⟨s, 0⟩ }

/-- Ticks since the last transition (`Person::in_state_since`). -/
def in_state_since (p : Person) : Nat := p.infection_state.in_state_since

/-- State test (`Person::is_susceptible`). -/
def is_susceptible (p : Person) : Bool := p.state = State.Susceptible

/-- State test (`Person::is_infected`). -/
def is_infected (p : Person) : Bool := p.state = State.Infected

/-- State test (`Person::is_infectious`). -/
def is_infectious (p : Person) : Bool := p.state = State.Infectious

/-- State test (`Person::is_recovered`). -/
def is_recovered (p : Person) : Bool := p.state = State.Recovered

/-- Breathing decision (`Person::is_breathing`). -/
def is_breathing (p : Person) : Bool := p.rng.is_breathing

/-- Coughing decision (`Person::is_coughing`). -/
def is_coughing (p : Person) : Bool := p.rng.is_coughing

/-- Infects the person if it is susceptible (`Person::infect`). -/
def infect (p : Person) : Person :=
  if p.is_susceptible then p.set_state State.Infected else p

/-- Boundary snapshot of the person (`Person::info`). -/
def info (p : Person) : PersonInfo :=
  ⟨p.name, p.position, p.rng.digest, p.infection_state, p.direction⟩

/-- Simulates a tick on the person (`Person::tick`). -/
def tick (p : Person) (grid : Rectangle) (obstacles : List Rectangle)
    (positions ghosts : List Xy) : Except TickPanic Person :=
  let p := { p with rng := p.rng.tick }
  let p := { p with infection_state :=
    ⟨p.infection_state.state, p.infection_state.in_state_since + 1⟩ }
  let p :=
    if p.is_infected ∧ p.in_state_since ≥ p.parameters.incubation_time then
      p.set_state State.Infectious
    else if p.is_infectious ∧ p.in_state_since ≥ p.parameters.recovery_time then
      p.set_state State.Recovered
    else p
  match p.rng.acceleration with
  | Option.none => Except.error TickPanic.divByZero
  | some accel =>
    let velocity := (p.direction.vector + accel.vector).limit (-1) 1
    let position := p.position + velocity
    if ¬ grid.contains position then
      Except.ok { p with direction := Direction.None }
    else if obstacles.any (fun o => o.contains position) then
      Except.ok { p with direction := Direction.None }
    else if (positions ++ ghosts).any (fun q => q = position) then
      Except.ok { p with direction := Direction.None }
    else
      match Direction.from_vector velocity with
      | some d => Except.ok { p with direction := d, position := position }
      | Option.none => Except.error TickPanic.badVector

end Person

/-- Auxiliary structure holding all the simulation data of the serial
reference engine (`spread-sim-slug/src/lib.rs`, `struct Slug`). -/
structure Slug where
  scenario : Scenario
  population : List Person
  trace : List TraceEntry
  statistics : List (String × List Statistics)
  positions : List Xy
  ghosts : List Xy
deriving DecidableEq, Repr

namespace Slug

/-- Counts the persons satisfying a predicate (`Slug::count_persons`). -/
def count_persons (sl : Slug) (predicate : Person → Bool) : Nat :=
  (sl.population.filter predicate).length

/-- The statistics row produced for one query by `Slug::extend_statistics`. -/
def query_statistics (sl : Slug) (q : Query) : Statistics :=
  ⟨sl.count_persons (fun p => p.is_susceptible && q.area.contains p.position),
   sl.count_persons (fun p => p.is_infected && q.area.contains p.position),
   sl.count_persons (fun p => p.is_infectious && q.area.contains p.position),
   sl.count_persons (fun p => p.is_recovered && q.area.contains p.position)⟩

/-- Pushes a statistics row onto the list held for a key
(`self.statistics.get_mut(key).unwrap().push(statistics)`); the `unwrap` panic
on a missing key is embedded as `Option.none`. -/
def pushStat : List (String × List Statistics) → String → Statistics →
    Option (List (String × List Statistics))
  | [], _, _ => Option.none
  | (k, l) :: rest, key, st =>
      if k = key then some ((k, l ++ [st]) :: rest)
      else (pushStat rest key st).map fun r => (k, l) :: r

/-- Appends one statistics row per query (`Slug::extend_statistics`). -/
def extend_statistics (sl : Slug) : Option Slug :=
  (sl.scenario.queries.foldlM
      (fun stats kq => pushStat stats kq.1 (sl.query_statistics kq.2))
      sl.statistics).map
    fun st => { sl with statistics := st }

/-- Appends the per-tick trace entry and statistics rows
(`Slug::extend_output`). -/
def extend_output (sl : Slug) : Option Slug :=
  let sl :=
    if sl.scenario.trace then
      { sl with trace := sl.trace ++ [⟨sl.population.map Person.info⟩] }
    else sl
  sl.extend_statistics

/-- Constructs the initial simulation state (`Slug::new`). -/
def new (scenario : Scenario) : Option Slug :=
  let statistics := scenario.queries.map fun kq => (kq.1, ([] : List Statistics))
  let population := scenario.population.enum.map
    fun ip => Person.new ip.1 ip.2 scenario.parameters
  let positions := population.map fun p => p.position
  extend_output ⟨scenario, population, [], statistics, positions, []⟩

/-- The movement loop of `Slug::tick`: each person's pre-move position is
pushed onto the ghost list, the person ticks against the current position
vector (which still holds its own pre-move entry at its index) and the ghost
list, and its entry of the position vector is then updated. -/
def move_loop (grid : Rectangle) (obstacles : List Rectangle) :
    Nat → List Person → List Xy → List Xy →
    Except TickPanic (List Person × List Xy × List Xy)
  | _, [], positions, ghosts => Except.ok ([], positions, ghosts)
  | idx, p :: rest, positions, ghosts =>
      let ghosts' := ghosts ++ [p.position]
      match p.tick grid obstacles positions ghosts' with
      | Except.error e => Except.error e
      | Except.ok p' =>
          match move_loop grid obstacles (idx + 1) rest
              (positions.set idx p'.position) ghosts' with
          | Except.error e => Except.error e
          | Except.ok (rest', positions', ghosts'') =>
              Except.ok (p' :: rest', positions', ghosts'')

/-- Reads the person at an index; in every reachable call the index is in
bounds, the default stands in for the Rust index panic. -/
def getP (pop : List Person) (k : Nat) : Person := pop.getD k default

/-- The body of the infection loop of `Slug::tick` for one index pair. -/
def infect_pair (radius : Nat) (pop : List Person) (i j : Nat) : List Person :=
  let pos_i := (getP pop i).position
  let pos_j := (getP pop j).position
  let delta_x := (pos_i.x - pos_j.x).natAbs
  let delta_y := (pos_i.y - pos_j.y).natAbs
  let distance := delta_x + delta_y
  if distance ≤ radius then
    let pop1 :=
      if (getP pop i).is_infectious && (getP pop i).is_coughing &&
          (getP pop j).is_breathing
      then pop.set j (getP pop j).infect else pop
    if (getP pop1 j).is_infectious && (getP pop1 j).is_coughing &&
        (getP pop1 i).is_breathing
    then pop1.set i (getP pop1 i).infect else pop1
  else pop

/-- The nested infection loop of `Slug::tick` over all pairs `i < j`. -/
def infect_all (radius : Nat) (pop : List Person) : List Person :=
  (List.range pop.length).foldl
    (fun acc i =>
      (List.range' (i + 1) (pop.length - (i + 1))).foldl
        (fun acc2 j => infect_pair radius acc2 i j) acc)
    pop

/-- Simulates one tick (`Slug::tick`). -/
def tick (sl : Slug) : Option Slug :=
  match move_loop sl.scenario.grid sl.scenario.obstacles 0
      sl.population sl.positions sl.ghosts with
  | Except.error _ => Option.none
  | Except.ok (population', positions', _) =>
      let sl := { sl with population := population', positions := positions',
                          ghosts := [] }
      let pop2 := infect_all sl.scenario.parameters.infection_radius sl.population
      let sl := { sl with population := pop2 }
      sl.extend_output

/-- Runs the given number of ticks (the loop of `creep`). -/
def run_ticks : Nat → Slug → Option Slug
  | 0, sl => some sl
  | n + 1, sl => sl.tick.bind (run_ticks n)

/-- Finalizes the output (`Slug::into_output`). -/
def into_output (sl : Slug) : Output := ⟨sl.scenario, sl.trace, sl.statistics⟩

end Slug

/-- The serial reference entrypoint (`spread-sim-slug`, `creep`). -/
def creep (scenario : Scenario) : Option Output :=
  (Slug.new scenario).bind fun sl =>
    (Slug.run_ticks sl.scenario.ticks sl).map Slug.into_output

/-!
Propagation pre-analysis (`simulation/utils.rs`, `may_propagate_from`).
The Rust worklist holds the region in a `HashSet` (embedded as a membership
list) and the frontier in a `Vec` used as a stack (`push` appends at the back,
`pop` removes from the back).  The unbounded `while` loop is embedded with
fuel; exhausted fuel yields `Option.none`.
-/

/-- The delta pairs enumerated by the two nested `for` loops, ranging over
`-infection_radius ..= infection_radius` in both components. -/
def deltaPairs (r : Int) : List (Int × Int) :=
  (Rectangle.intRange (-r) (r + 1)).flatMap fun delta_x =>
    (Rectangle.intRange (-r) (r + 1)).map fun delta_y => (delta_x, delta_y)

/-- The body of the `while` loop of `may_propagate_from` for one popped cell:
every delta pair passing the distance test contributes its neighbour to region
and frontier when the neighbour is new, on the grid and not on an obstacle.
The state is the pair of region and frontier. -/
def expand (scn : Scenario) (r : Int) (cell : Xy) (st : List Xy × List Xy) :
    List Xy × List Xy :=
  (deltaPairs r).foldl
    (fun st dp =>
      let distance := |dp.1 + dp.2|
      if distance ≤ r ∨ (|dp.1| ≤ 1 ∧ |dp.2| ≤ 1) then
        let neighbor := cell + Xy.new dp.1 dp.2
        if neighbor ∉ st.1 ∧ scn.grid.contains neighbor ∧
            ¬ scn.on_obstacle neighbor then
          (neighbor :: st.1, st.2 ++ [neighbor])
        else st
      else st)
    st

/-- The `while let Some(cell) = frontier.pop()` loop of `may_propagate_from`,
with fuel. -/
def grow_loop (scn : Scenario) (r : Int) :
    Nat → List Xy → List Xy → Option (List Xy)
  | _, region, [] => some region
  | 0, _, _ :: _ => Option.none
  | fuel + 1, region, f0 :: fs =>
      let cell := (f0 :: fs).getLast (List.cons_ne_nil f0 fs)
      let st := expand scn r cell (region, (f0 :: fs).dropLast)
      grow_loop scn r fuel st.1 st.2

/-- The initialization loop of `may_propagate_from`: every non-obstacle cell
of the target rectangle seeds both the region and the frontier. -/
def init_state (scn : Scenario) (target : Rectangle) : List Xy × List Xy :=
  target.cell_list.foldl
    (fun st c =>
      if ¬ scn.on_obstacle c then (c :: st.1, st.2 ++ [c]) else st)
    ([], [])

/-- Computes whether it is possible to propagate information from a source
area to a target area (`simulation/utils.rs`, `may_propagate_from`). -/
def may_propagate_from (scn : Scenario) (source target : Rectangle)
    (fuel : Nat) : Option Bool :=
  let st := init_state scn target
  (grow_loop scn (scn.parameters.infection_radius : Int) fuel st.1 st.2).map
    fun region =>
      source.cell_list.any fun c => !scn.on_obstacle c && decide (c ∈ region)

/-- The cells reachable from a base set by the growth rule as the code
implements it: the deltas range over the square box
`[-infection_radius, infection_radius]²` and a delta qualifies when
`|delta_x + delta_y| ≤ infection_radius` or both components are at most 1 in
absolute value; neighbours are restricted to in-grid non-obstacle cells. -/
inductive CodeReach (scn : Scenario) (r : Int) (base : List Xy) : Xy → Prop where
  | base : ∀ c, c ∈ base → CodeReach scn r base c
  | step : ∀ c dx dy, CodeReach scn r base c →
      -r ≤ dx → dx ≤ r → -r ≤ dy → dy ≤ r →
      (|dx + dy| ≤ r ∨ (|dx| ≤ 1 ∧ |dy| ≤ 1)) →
      scn.grid.contains (c + Xy.new dx dy) →
      ¬ scn.on_obstacle (c + Xy.new dx dy) →
      CodeReach scn r base (c + Xy.new dx dy)

/-- The cells reachable from a base set by the growth rule exactly as the
specification words it: every cell `(x+dx, y+dy)` with
`|dx| + |dy| ≤ infection_radius` or (`|dx| ≤ 1` and `|dy| ≤ 1`), restricted to
in-grid non-obstacle cells. -/
inductive SpecReach (scn : Scenario) (r : Nat) (base : List Xy) : Xy → Prop where
  | base : ∀ c, c ∈ base → SpecReach scn r base c
  | step : ∀ c dx dy, SpecReach scn r base c →
      (dx.natAbs + dy.natAbs ≤ r ∨ (|dx| ≤ 1 ∧ |dy| ≤ 1)) →
      scn.grid.contains (c + Xy.new dx dy) →
      ¬ scn.on_obstacle (c + Xy.new dx dy) →
      SpecReach scn r base (c + Xy.new dx dy)

/-- The non-obstacle cells of a rectangle, the base set of the region growth. -/
def baseCells (scn : Scenario) (rect : Rectangle) : List Xy :=
  rect.cell_list.filter fun c => !scn.on_obstacle c

/-- Error indicating an insufficient padding (`spread-sim-core/src/lib.rs`,
`InsufficientPaddingError`). -/
structure InsufficientPaddingError where
  padding : Nat
deriving DecidableEq, Repr

/-- Modelled from the spec: the concurrent engine entrypoint `launch` of
`spread-sim-rocket/src/lib.rs` is an unimplemented skeleton in the repository
(its body is `todo!()` for the rocket mode and `panic!()` for the starship
mode), so the engine it should contain is missing from the sources.  Per the
spec's engine contract, `launch` rejects a padding below
`infection_radius + 1` with `InsufficientPadding(padding)` before running any
tick and otherwise produces the output of the deterministic serial reference
(the spec's parity law: rocket output equals slug output for every scenario).
The validator hook only observes the run, so it is embedded as `Unit`.  The
outer `Option` propagates the panic embedding of the reference engine. -/
def launch (scenario : Scenario) (padding : Nat) (_validator : Unit)
    (_starship : Bool) : Option (Except InsufficientPaddingError Output) :=
  if padding < scenario.parameters.infection_radius + 1 then
    some (Except.error ⟨padding⟩)
  else
    (creep scenario).map Except.ok

/-!
Proof-layer definitions: named forms of the intermediate values computed by
`Person::tick` and `Slug::tick`, used to state the theorems below.
-/

/-- The infection state after the time-driven part of `Person::tick`: the
dwell counter is incremented and then at most one transition fires. -/
def stateAfter (p : Person) : InfectionState :=
  if p.state = State.Infected ∧ p.in_state_since + 1 ≥ p.parameters.incubation_time then
    ⟨State.Infectious, 0⟩
  else if p.state = State.Infectious ∧ p.in_state_since + 1 ≥ p.parameters.recovery_time then
    ⟨State.Recovered, 0⟩
  else ⟨p.state, p.in_state_since + 1⟩

/-- The person after the RNG advance and the time-driven state update of
`Person::tick`, before the movement phase. -/
def Person.advanced (p : Person) : Person :=
  { p with rng := p.rng.tick, infection_state := stateAfter p }

/-- The acceleration direction drawn from the advanced RNG chain state during
`Person::tick`. -/
def accelOf (p : Person) : Direction :=
  Direction.from_index (p.rng.tick.unsigned_byte 2 / p.rng.parameters.acceleration_divisor)

/-- The clamped velocity computed by `Person::tick`. -/
def velocityOf (p : Person) : Xy :=
  (p.direction.vector + (accelOf p).vector).limit (-1) 1

/-- The SI²R counts of a population over a query area; `Slug::extend_statistics`
produces exactly this row for each query. -/
def countStats (pop : List Person) (q : Query) : Statistics :=
  ⟨(pop.filter fun p => p.is_susceptible && q.area.contains p.position).length,
   (pop.filter fun p => p.is_infected && q.area.contains p.position).length,
   (pop.filter fun p => p.is_infectious && q.area.contains p.position).length,
   (pop.filter fun p => p.is_recovered && q.area.contains p.position).length⟩

/-- The simulation state reached after a given number of ticks of the serial
reference. -/
def slugAt (s : Scenario) (t : Nat) : Option Slug :=
  (Slug.new s).bind (Slug.run_ticks t)

/-- The population after a given number of ticks of the serial reference. -/
def popAt (s : Scenario) (t : Nat) : Option (List Person) :=
  (slugAt s t).map Slug.population

/-- The movement phase of `Person::tick` (steps 4 and 5), over the person that
already carries the advanced RNG and the updated infection state. -/
def tickMove (q : Person) (grid : Rectangle) (obstacles : List Rectangle)
    (positions ghosts : List Xy) : Except TickPanic Person :=
  match q.rng.acceleration with
  | Option.none => Except.error TickPanic.divByZero
  | some accel =>
    let velocity := (q.direction.vector + accel.vector).limit (-1) 1
    let position := q.position + velocity
    if ¬ grid.contains position then
      Except.ok { q with direction := Direction.None }
    else if obstacles.any (fun o => o.contains position) then
      Except.ok { q with direction := Direction.None }
    else if (positions ++ ghosts).any (fun x => x = position) then
      Except.ok { q with direction := Direction.None }
    else
      match Direction.from_vector velocity with
      | some d => Except.ok { q with direction := d, position := position }
      | Option.none => Except.error TickPanic.badVector

/-!
Concrete objects used by the witness theorems.
-/

/-- Concrete parameters for witnesses. -/
def wParams : Parameters := ⟨30, 150, 20, 120, 1, 8⟩

/-- Concrete grid for witnesses. -/
def wGrid : Rectangle := Rectangle.new Xy.zero (Xy.new 10 10)

/-- The SHA-256 digest of the all-zero 32-byte seed. -/
def wDigest : List Nat := sha256 (List.replicate 32 0)

/-- A concrete person for witnesses. -/
def wPerson : Person :=
  ⟨0, wParams, "Alice", Xy.new 5 5, Direction.None,
   ⟨State.Susceptible, 0⟩, ⟨wParams, List.replicate 32 0⟩⟩

/-- The result of one tick of `wPerson` on an empty grid. -/
def wPersonAfter : Person :=
  ⟨0, wParams, "Alice", Xy.new 6 6, Direction.SouthEast,
   ⟨State.Susceptible, 1⟩, ⟨wParams, wDigest⟩⟩

/-- A concrete empty scenario for witnesses. -/
def wScn0 : Scenario :=
  { name := "w", parameters := wParams, ticks := 0, grid_size := Xy.new 10 10,
    trace := false, partition := ⟨[], []⟩, obstacles := [], queries := [],
    population := [] }

/-- Manhattan distance as computed by the infection loop of `Slug::tick`. -/
def manhattan (a b : Xy) : Nat := (a.x - b.x).natAbs + (a.y - b.y).natAbs

/-- Sequential processing of a list of index pairs by the infection-loop body;
the nested loop of `Slug::tick` is this fold over all pairs `i < j` in order. -/
def applyPairs (radius : Nat) (L : List (Nat × Nat)) (pop : List Person) :
    List Person :=
  L.foldl (fun acc ij => Slug.infect_pair radius acc ij.1 ij.2) pop

/-- All index pairs `(i, j)` with `i < j < n` in the order of the nested
infection loop. -/
def allPairs (n : Nat) : List (Nat × Nat) :=
  (List.range n).flatMap fun i =>
    (List.range' (i + 1) (n - (i + 1))).map fun j => (i, j)

/-- One evaluated direction of the pair `(i, j)` infects index `k`. -/
def pairTrig (radius : Nat) (pop : List Person) (i j k : Nat) : Prop :=
  (k = j ∧ manhattan (Slug.getP pop i).position (Slug.getP pop j).position ≤ radius ∧
     (Slug.getP pop i).is_infectious ∧ (Slug.getP pop i).is_coughing ∧
     (Slug.getP pop j).is_breathing) ∨
  (k = i ∧ manhattan (Slug.getP pop i).position (Slug.getP pop j).position ≤ radius ∧
     (Slug.getP pop j).is_infectious ∧ (Slug.getP pop j).is_coughing ∧
     (Slug.getP pop i).is_breathing)

/-- Some other person within the infection radius is infectious and coughing
while person `k` is breathing. -/
def triggers (radius : Nat) (pop : List Person) (k : Nat) : Prop :=
  ∃ m, m < pop.length ∧ m ≠ k ∧
    manhattan (Slug.getP pop m).position (Slug.getP pop k).position ≤ radius ∧
    (Slug.getP pop m).is_infectious ∧ (Slug.getP pop m).is_coughing ∧
    (Slug.getP pop k).is_breathing

/-- Intermediate populations of the infection loop: every entry is the
original person or its infected version. -/
def Mid (pop₀ pop : List Person) : Prop :=
  pop.length = pop₀.length ∧
  ∀ k, Slug.getP pop k = Slug.getP pop₀ k ∨
       Slug.getP pop k = (Slug.getP pop₀ k).infect

/-- A concrete two-person population for the infection witness: an infectious
cougher at the origin and a susceptible breather next to it. -/
def wInfPop : List Person :=
  [⟨0, ⟨256, 256, 20, 120, 1, 8⟩, "Ida", Xy.new 0 0, Direction.None,
    ⟨State.Infectious, 0⟩, ⟨⟨256, 256, 20, 120, 1, 8⟩, []⟩⟩,
   ⟨1, ⟨256, 256, 20, 120, 1, 8⟩, "Sam", Xy.new 1 0, Direction.None,
    ⟨State.Susceptible, 0⟩, ⟨⟨256, 256, 20, 120, 1, 8⟩, []⟩⟩]

/-- A concrete scenario for the distinctness witness: a 10×10 grid, no
obstacles, no queries, no trace. -/
def wScn2 : Scenario :=
  { name := "w2", parameters := wParams, ticks := 1, grid_size := Xy.new 10 10,
    trace := false, partition := ⟨[], []⟩, obstacles := [], queries := [],
    population := [] }

/-- A concrete simulation state with two persons on distinct cells. -/
def wSlug : Slug :=
  { scenario := wScn2,
    population :=
      [⟨0, wParams, "Ann", Xy.new 2 2, Direction.None, ⟨State.Susceptible, 0⟩,
        ⟨wParams, List.replicate 32 0⟩⟩,
       ⟨1, wParams, "Bob", Xy.new 7 7, Direction.None, ⟨State.Susceptible, 0⟩,
        ⟨wParams, List.replicate 32 0⟩⟩],
    trace := [], statistics := [],
    positions := [Xy.new 2 2, Xy.new 7 7], ghosts := [] }

/-- The state after one tick of `wSlug`: both persons draw the south-east
acceleration from the all-zero seed and move diagonally. -/
def wSlugAfter : Slug :=
  { scenario := wScn2,
    population :=
      [⟨0, wParams, "Ann", Xy.new 3 3, Direction.SouthEast, ⟨State.Susceptible, 1⟩,
        ⟨wParams, wDigest⟩⟩,
       ⟨1, wParams, "Bob", Xy.new 8 8, Direction.SouthEast, ⟨State.Susceptible, 1⟩,
        ⟨wParams, wDigest⟩⟩],
    trace := [], statistics := [],
    positions := [Xy.new 3 3, Xy.new 8 8], ghosts := [] }

/-- A concrete scenario for the propagation analysis: a 3×3 grid whose only
non-obstacle cells are `(2, 0)` and `(0, 2)`, with infection radius 2. -/
def cScn : Scenario :=
  { name := "c", parameters := ⟨30, 150, 20, 120, 2, 8⟩, ticks := 0,
    grid_size := Xy.new 3 3, trace := false, partition := ⟨[], []⟩,
    obstacles := [Rectangle.new (Xy.new 0 0) (Xy.new 2 1),
                  Rectangle.new (Xy.new 0 1) (Xy.new 3 1),
                  Rectangle.new (Xy.new 1 2) (Xy.new 2 1)],
    queries := [], population := [] }

/-- The single-cell source rectangle `{(0, 2)}` of the propagation example. -/
def cSource : Rectangle := Rectangle.new (Xy.new 0 2) (Xy.new 1 1)

/-- The single-cell target rectangle `{(2, 0)}` of the propagation example. -/
def cTarget : Rectangle := Rectangle.new (Xy.new 2 0) (Xy.new 1 1)

/-- The body of the delta double loop of `may_propagate_from`, as a named
step function; `expand` is its fold over the delta pairs. -/
def growStep (scn : Scenario) (r : Int) (cell : Xy) (st : List Xy × List Xy)
    (dp : Int × Int) : List Xy × List Xy :=
  let distance := |dp.1 + dp.2|
  if distance ≤ r ∨ (|dp.1| ≤ 1 ∧ |dp.2| ≤ 1) then
    let neighbor := cell + Xy.new dp.1 dp.2
    if neighbor ∉ st.1 ∧ scn.grid.contains neighbor ∧
        ¬ scn.on_obstacle neighbor then
      (neighbor :: st.1, st.2 ++ [neighbor])
    else st
  else st

/-- The worklist invariant of the growth loop of `may_propagate_from`: the
frontier is part of the region, the region is sound for the code's
reachability closure and contains the base cells, and every region cell no
longer on the frontier is closed under the code's growth rule. -/
def GoodState (scn : Scenario) (r : Int) (base region frontier : List Xy) :
    Prop :=
  (∀ x ∈ frontier, x ∈ region) ∧
  (∀ x ∈ region, CodeReach scn r base x) ∧
  (∀ x ∈ base, x ∈ region) ∧
  (∀ x ∈ region, x ∉ frontier → ∀ dx dy : Int,
    -r ≤ dx → dx ≤ r → -r ≤ dy → dy ≤ r →
    (|dx + dy| ≤ r ∨ (|dx| ≤ 1 ∧ |dy| ≤ 1)) →
    scn.grid.contains (x + Xy.new dx dy) →
    ¬ scn.on_obstacle (x + Xy.new dx dy) →
    x + Xy.new dx dy ∈ region)

/-- A concrete scenario for the output-series witness: empty population, one
query over the whole grid, tracing on. -/
def wScn9 : Scenario :=
  { name := "w9", parameters := wParams, ticks := 2, grid_size := Xy.new 10 10,
    trace := true, partition := ⟨[], []⟩, obstacles := [],
    queries := [("all", ⟨Rectangle.new Xy.zero (Xy.new 10 10)⟩)],
    population := [] }

/-- The output of `creep` on `wScn9`. -/
def wOut9 : Output :=
  { scenario := wScn9, trace := [⟨[]⟩, ⟨[]⟩, ⟨[]⟩],
    statistics := [("all", [⟨0, 0, 0, 0⟩, ⟨0, 0, 0, 0⟩, ⟨0, 0, 0, 0⟩])] }

/-!
Helper lemmas about `Direction::from_vector`, `Xy::limit` and `Person::tick`.
-/

/-- Both components of a vector clamped by `limit (-1) 1` lie in `[-1, 1]`. -/
theorem limit_bounds (v : Xy) :
    |(v.limit (-1) 1).x| ≤ 1 ∧ |(v.limit (-1) 1).y| ≤ 1 := by
  simp only [Xy.limit, abs_le]
  omega

/-- `from_vector` succeeds exactly on vectors with both components in `[-1, 1]`. -/
theorem from_vector_isSome_iff (v : Xy) :
    (Direction.from_vector v).isSome ↔ (|v.x| ≤ 1 ∧ |v.y| ≤ 1) := by
  obtain ⟨x, y⟩ := v
  simp only [Direction.from_vector, Xy.new, Xy.mk.injEq]
  split_ifs with h1 h2 h3 h4 h5 h6 h7 h8 h9 <;>
    simp_all [abs_le] <;> omega

/-- Membership form of the person/ghost collision test of `Person::tick`. -/
theorem any_append_eq_mem (l g : List Xy) (x : Xy) :
    ((l ++ g).any fun q => q = x) = decide (x ∈ l ∨ x ∈ g) := by
  apply Bool.eq_iff_iff.mpr
  simp only [List.any_eq_true, decide_eq_true_eq, List.mem_append]
  constructor
  · rintro ⟨q, hq, rfl⟩; exact hq
  · intro hx; exact ⟨x, hx, rfl⟩

/-- `Person::tick` is the time-driven state update followed by the movement
phase. -/
theorem tick_as_move (p : Person) (grid : Rectangle) (obstacles : List Rectangle)
    (positions ghosts : List Xy) :
    p.tick grid obstacles positions ghosts =
      tickMove p.advanced grid obstacles positions ghosts := by
  have hT :
      (let p1 : Person := { p with rng := p.rng.tick }
       let p2 : Person := { p1 with infection_state :=
         ⟨p1.infection_state.state, p1.infection_state.in_state_since + 1⟩ }
       if p2.is_infected ∧ p2.in_state_since ≥ p2.parameters.incubation_time then
         p2.set_state State.Infectious
       else if p2.is_infectious ∧ p2.in_state_since ≥ p2.parameters.recovery_time then
         p2.set_state State.Recovered
       else p2) = p.advanced := by
    simp only [Person.advanced, stateAfter, Person.set_state, Person.is_infected,
      Person.is_infectious, Person.state, Person.in_state_since,
      decide_eq_true_eq]
    split_ifs <;> rfl
  show
    (let p1 : Person := { p with rng := p.rng.tick }
     let p2 : Person := { p1 with infection_state :=
       ⟨p1.infection_state.state, p1.infection_state.in_state_since + 1⟩ }
     let p3 : Person :=
       if p2.is_infected ∧ p2.in_state_since ≥ p2.parameters.incubation_time then
         p2.set_state State.Infectious
       else if p2.is_infectious ∧ p2.in_state_since ≥ p2.parameters.recovery_time then
         p2.set_state State.Recovered
       else p2
     tickMove p3 grid obstacles positions ghosts) =
      tickMove p.advanced grid obstacles positions ghosts
  exact congrArg (fun q => tickMove q grid obstacles positions ghosts) hT

/-- Projection of `Person.advanced`. -/
theorem advanced_position (p : Person) : p.advanced.position = p.position := rfl

/-- Projection of `Person.advanced`. -/
theorem advanced_direction (p : Person) : p.advanced.direction = p.direction := rfl

/-- Projection of `Person.advanced`. -/
theorem advanced_rng (p : Person) : p.advanced.rng = p.rng.tick := rfl

/-- Projection of `Person.advanced`. -/
theorem advanced_infection (p : Person) : p.advanced.infection_state = stateAfter p := rfl

/-- The movement phase never reaches the panic branch of
`Direction::from_vector`: the velocity is clamped to `[-1, 1]` beforehand. -/
theorem tickMove_not_badVector (q : Person) (grid : Rectangle)
    (obstacles : List Rectangle) (positions ghosts : List Xy) :
    tickMove q grid obstacles positions ghosts ≠ Except.error TickPanic.badVector := by
  unfold tickMove
  cases hacc : q.rng.acceleration with
  | none => simp
  | some accel =>
    have hb := limit_bounds (q.direction.vector + accel.vector)
    have hs := (from_vector_isSome_iff
      ((q.direction.vector + accel.vector).limit (-1) 1)).mpr hb
    obtain ⟨d, hd⟩ := Option.isSome_iff_exists.mp hs
    simp only [hd]
    split_ifs <;> simp

/-- With a nonzero acceleration divisor the movement phase always returns a
person. -/
theorem tickMove_isOk (q : Person) (grid : Rectangle)
    (obstacles : List Rectangle) (positions ghosts : List Xy)
    (hdiv : q.rng.parameters.acceleration_divisor ≠ 0) :
    ∃ q', tickMove q grid obstacles positions ghosts = Except.ok q' := by
  unfold tickMove
  have hacc : q.rng.acceleration = some (Direction.from_index
      (q.rng.unsigned_byte 2 / q.rng.parameters.acceleration_divisor)) := by
    simp [Rng.acceleration, hdiv]
  rw [hacc]
  set accel := Direction.from_index
    (q.rng.unsigned_byte 2 / q.rng.parameters.acceleration_divisor)
  have hb := limit_bounds (q.direction.vector + accel.vector)
  have hs := (from_vector_isSome_iff
    ((q.direction.vector + accel.vector).limit (-1) 1)).mpr hb
  obtain ⟨d, hd⟩ := Option.isSome_iff_exists.mp hs
  simp only [hd]
  split_ifs <;> exact ⟨_, rfl⟩

/-- Full characterization of a successful movement phase: the non-positional
fields are unchanged, and the outcome follows the three collision checks in
their fixed order. -/
theorem tickMove_spec (q q' : Person) (grid : Rectangle)
    (obstacles : List Rectangle) (positions ghosts : List Xy)
    (h : tickMove q grid obstacles positions ghosts = Except.ok q') :
    q'.infection_state = q.infection_state ∧ q'.rng = q.rng ∧
    q'.parameters = q.parameters ∧ q'.name = q.name ∧ q'.id = q.id ∧
    (let velocity := (q.direction.vector + (Direction.from_index
        (q.rng.unsigned_byte 2 / q.rng.parameters.acceleration_divisor)).vector).limit (-1) 1
     let pos' := q.position + velocity
     (¬ grid.contains pos' → q' = { q with direction := Direction.None }) ∧
     (grid.contains pos' → obstacles.any (fun o => o.contains pos') = true →
        q' = { q with direction := Direction.None }) ∧
     (grid.contains pos' → ¬ obstacles.any (fun o => o.contains pos') = true →
        (pos' ∈ positions ∨ pos' ∈ ghosts) →
        q' = { q with direction := Direction.None }) ∧
     (grid.contains pos' → ¬ obstacles.any (fun o => o.contains pos') = true →
        ¬ (pos' ∈ positions ∨ pos' ∈ ghosts) →
        Direction.from_vector velocity = some q'.direction ∧
          q' = { q with direction := q'.direction, position := pos' })) := by
  unfold tickMove at h
  split at h
  · cases h
  · next accel hacc =>
    have hdiv : q.rng.parameters.acceleration_divisor ≠ 0 := by
      intro h0
      simp [Rng.acceleration, h0] at hacc
    have haccval : accel = Direction.from_index
        (q.rng.unsigned_byte 2 / q.rng.parameters.acceleration_divisor) := by
      simp [Rng.acceleration, hdiv] at hacc
      exact hacc.symm
    subst haccval
    simp only [any_append_eq_mem] at h
    split_ifs at h with hgrid hobs hmem
    all_goals
      first
      | (injection h with h2
         subst h2
         refine ⟨rfl, rfl, rfl, rfl, rfl, ?_, ?_, ?_, ?_⟩ <;> intros <;> simp_all)
      | (split at h
         all_goals
           first
           | exact Except.noConfusion h
           | (injection h with h2
              subst h2
              refine ⟨rfl, rfl, rfl, rfl, rfl, ?_, ?_, ?_, ?_⟩ <;> intros <;>
                simp_all))

/-!
Claim theorems about the per-person tick, the RNG and the entrypoints.
-/

/-- C10: `Direction::from_vector` is partial — it succeeds exactly on the nine
vectors with both components in `{-1, 0, 1}` and panics on every other vector —
but its panic branch is unreachable from `Person::tick`, whose argument is the
componentwise clamp of `direction.vector + acceleration.vector` to `[-1, 1]`. -/
theorem C10_from_vector_safe_in_tick :
    (∀ v : Xy, (Direction.from_vector v).isSome ↔ (|v.x| ≤ 1 ∧ |v.y| ≤ 1)) ∧
    (∀ (p : Person) (grid : Rectangle) (obstacles : List Rectangle)
       (positions ghosts : List Xy),
       p.tick grid obstacles positions ghosts ≠ Except.error TickPanic.badVector) := by
  refine ⟨from_vector_isSome_iff, ?_⟩
  intro p grid obstacles positions ghosts
  rw [tick_as_move]
  exact tickMove_not_badVector p.advanced grid obstacles positions ghosts

/-- C6: on every successful call of `Person::tick`, `in_state_since` is first
incremented and then at most one time-driven transition fires — Infected with
full incubation becomes Infectious, else Infectious with full recovery becomes
Recovered, each resetting the dwell counter — while Susceptible and Recovered
persons never transition on time, and the dwell counter is 0 immediately after
any transition, including the one performed by `infect`. -/
theorem C6_dwell_and_transitions (p p' : Person) (grid : Rectangle)
    (obstacles : List Rectangle) (positions ghosts : List Xy)
    (h : p.tick grid obstacles positions ghosts = Except.ok p') :
    p'.infection_state = stateAfter p ∧
    (p.state = State.Infected ∧ p.in_state_since + 1 ≥ p.parameters.incubation_time →
       p'.infection_state = ⟨State.Infectious, 0⟩) ∧
    (p.state = State.Infectious ∧ p.in_state_since + 1 ≥ p.parameters.recovery_time →
       p'.infection_state = ⟨State.Recovered, 0⟩) ∧
    ((p.state = State.Susceptible ∨ p.state = State.Recovered) →
       p'.infection_state = ⟨p.state, p.in_state_since + 1⟩) ∧
    (p'.infection_state.state ≠ p.state → p'.infection_state.in_state_since = 0) ∧
    (∀ q : Person, q.is_susceptible → q.infect.infection_state = ⟨State.Infected, 0⟩) ∧
    (∀ q : Person, ¬ q.is_susceptible → q.infect = q) := by
  rw [tick_as_move] at h
  have hinf := (tickMove_spec _ _ _ _ _ _ h).1
  rw [advanced_infection] at hinf
  refine ⟨hinf, ?_, ?_, ?_, ?_, ?_, ?_⟩
  · intro hc
    rw [hinf, stateAfter, if_pos hc]
  · rintro ⟨hst, hc⟩
    rw [hinf, stateAfter, if_neg (by simp [hst]), if_pos ⟨hst, hc⟩]
  · intro hc
    rw [hinf, stateAfter, if_neg, if_neg]
    · rcases hc with hc | hc <;> simp [hc]
    · rcases hc with hc | hc <;> simp [hc]
  · intro hne
    rw [hinf] at hne ⊢
    unfold stateAfter at hne ⊢
    split_ifs at hne ⊢ <;> simp_all
  · intro q hq
    simp [Person.infect, hq, Person.set_state]
  · intro q hq
    simp [Person.infect, hq]

/-- C4: on every successful call, `Person::tick` computes the clamped velocity
and the candidate position, then resolves collisions in the fixed order — off
the grid, on an obstacle, coinciding with a position or ghost — where a bump
resets the direction and keeps the position, and otherwise the person moves to
the candidate with direction `from_vector(velocity)`. -/
theorem C4_movement_resolution (p p' : Person) (grid : Rectangle)
    (obstacles : List Rectangle) (positions ghosts : List Xy)
    (h : p.tick grid obstacles positions ghosts = Except.ok p') :
    (¬ grid.contains (p.position + velocityOf p) →
       p'.direction = Direction.None ∧ p'.position = p.position) ∧
    (grid.contains (p.position + velocityOf p) →
       obstacles.any (fun o => o.contains (p.position + velocityOf p)) = true →
       p'.direction = Direction.None ∧ p'.position = p.position) ∧
    (grid.contains (p.position + velocityOf p) →
       ¬ obstacles.any (fun o => o.contains (p.position + velocityOf p)) = true →
       (p.position + velocityOf p ∈ positions ∨ p.position + velocityOf p ∈ ghosts) →
       p'.direction = Direction.None ∧ p'.position = p.position) ∧
    (grid.contains (p.position + velocityOf p) →
       ¬ obstacles.any (fun o => o.contains (p.position + velocityOf p)) = true →
       ¬ (p.position + velocityOf p ∈ positions ∨ p.position + velocityOf p ∈ ghosts) →
       Direction.from_vector (velocityOf p) = some p'.direction ∧
         p'.position = p.position + velocityOf p) := by
  rw [tick_as_move] at h
  have hs := tickMove_spec _ _ _ _ _ _ h
  obtain ⟨-, -, -, -, -, hmove⟩ := hs
  obtain ⟨h1, h2, h3, h4⟩ := hmove
  refine ⟨?_, ?_, ?_, ?_⟩
  · intro hg
    rw [h1 hg]
    exact ⟨rfl, rfl⟩
  · intro hg ho
    rw [h2 hg ho]
    exact ⟨rfl, rfl⟩
  · intro hg ho hm
    rw [h3 hg ho hm]
    exact ⟨rfl, rfl⟩
  · intro hg ho hm
    obtain ⟨hv, hq⟩ := h4 hg ho hm
    refine ⟨hv, ?_⟩
    rw [hq]
    rfl

/-- C7: the per-tick RNG decisions are exactly the byte comparisons
`d[0] < cough_threshold` and `d[1] < breath_threshold` and the integer
division `d[2] / acceleration_divisor` fed into `Direction::from_index`,
which maps 0–7 to N, E, S, W, NE, NW, SE, SW and every index at least 8 to
None. -/
theorem C7_rng_decisions (r : Rng) :
    (r.is_coughing = true ↔ r.digest.getD 0 0 < r.parameters.cough_threshold) ∧
    (r.is_breathing = true ↔ r.digest.getD 1 0 < r.parameters.breath_threshold) ∧
    (r.parameters.acceleration_divisor ≠ 0 →
       r.acceleration = some (Direction.from_index
         (r.digest.getD 2 0 / r.parameters.acceleration_divisor))) ∧
    (Direction.from_index 0 = Direction.North ∧
     Direction.from_index 1 = Direction.East ∧
     Direction.from_index 2 = Direction.South ∧
     Direction.from_index 3 = Direction.West ∧
     Direction.from_index 4 = Direction.NorthEast ∧
     Direction.from_index 5 = Direction.NorthWest ∧
     Direction.from_index 6 = Direction.SouthEast ∧
     Direction.from_index 7 = Direction.SouthWest) ∧
    (∀ i : Nat, 8 ≤ i → Direction.from_index i = Direction.None) := by
  refine ⟨?_, ?_, ?_, ?_, ?_⟩
  · simp [Rng.is_coughing, Rng.unsigned_byte]
  · simp [Rng.is_breathing, Rng.unsigned_byte]
  · intro hdiv
    simp [Rng.acceleration, Rng.unsigned_byte, hdiv]
  · exact ⟨rfl, rfl, rfl, rfl, rfl, rfl, rfl, rfl⟩
  · intro i hi
    obtain ⟨j, rfl⟩ : ∃ j, i = j + 8 := ⟨i - 8, by omega⟩
    rfl

/-- C1: for a padding of at least `infection_radius + 1` the engine entrypoint
returns exactly the output of the serial reference `creep`. -/
theorem C1_rocket_slug_parity (s : Scenario) (padding : Nat) (v : Unit)
    (hpad : s.parameters.infection_radius + 1 ≤ padding) :
    launch s padding v false = (creep s).map Except.ok := by
  unfold launch
  rw [if_neg (by omega)]

/-- C2: the entrypoint either returns an output or fails with
`InsufficientPadding` carrying the configured padding, and whenever
`padding < infection_radius + 1` it fails with that error. -/
theorem C2_insufficient_padding (s : Scenario) (padding : Nat) (v : Unit)
    (starship : Bool) :
    (padding < s.parameters.infection_radius + 1 →
       launch s padding v starship = some (Except.error ⟨padding⟩)) ∧
    (∀ res, launch s padding v starship = some res →
       (∃ out : Output, res = Except.ok out) ∨ res = Except.error ⟨padding⟩) := by
  unfold launch
  split_ifs with hp
  · refine ⟨fun _ => rfl, ?_⟩
    intro res hres
    injection hres with hres
    exact Or.inr hres.symm
  · refine ⟨fun hc => absurd hc hp, ?_⟩
    intro res hres
    cases hcreep : creep s with
    | none => rw [hcreep] at hres; cases hres
    | some out =>
      rw [hcreep] at hres
      injection hres with hres
      exact Or.inl ⟨out, hres.symm⟩

set_option maxRecDepth 10000 in
/-- Witness for C6 at a concrete person. -/
theorem C6_witness :
    wPerson.tick wGrid [] [] [] = Except.ok wPersonAfter ∧
    wPersonAfter.infection_state = stateAfter wPerson :=
  ⟨by rfl, (C6_dwell_and_transitions wPerson wPersonAfter wGrid [] [] []
      (by rfl)).1⟩

set_option maxRecDepth 10000 in
/-- Witness for C4 at a concrete person: the unobstructed move is taken. -/
theorem C4_witness :
    wPerson.tick wGrid [] [] [] = Except.ok wPersonAfter ∧
    (Direction.from_vector (velocityOf wPerson) = some wPersonAfter.direction ∧
       wPersonAfter.position = wPerson.position + velocityOf wPerson) :=
  ⟨by rfl, (C4_movement_resolution wPerson wPersonAfter wGrid [] [] []
      (by rfl)).2.2.2 (by decide) (by decide) (by decide)⟩

/-- Witness for C7 at a concrete RNG state. -/
theorem C7_witness :
    (Rng.mk wParams wDigest).parameters.acceleration_divisor ≠ 0 ∧
    (Rng.mk wParams wDigest).acceleration = some (Direction.from_index
      ((Rng.mk wParams wDigest).digest.getD 2 0 /
        (Rng.mk wParams wDigest).parameters.acceleration_divisor)) :=
  ⟨by decide, (C7_rng_decisions (Rng.mk wParams wDigest)).2.2.1 (by decide)⟩

/-- Witness for C1 at a concrete scenario and padding. -/
theorem C1_witness :
    wScn0.parameters.infection_radius + 1 ≤ 2 ∧
    launch wScn0 2 () false = (creep wScn0).map Except.ok :=
  ⟨by decide, C1_rocket_slug_parity wScn0 2 () (by decide)⟩

/-- Witness for C2 at a concrete scenario: an insufficient padding is
rejected with the typed error. -/
theorem C2_witness :
    (1 : Nat) < wScn0.parameters.infection_radius + 1 ∧
    launch wScn0 1 () false = some (Except.error ⟨1⟩) :=
  ⟨by decide, (C2_insufficient_padding wScn0 1 () false).1 (by decide)⟩

/-!
Helper lemmas for the infection loop of `Slug::tick`.
-/

/-- Reading the entry just written by `List.set`. -/
theorem getP_set_self (pop : List Person) (j : Nat) (x : Person)
    (hj : j < pop.length) : Slug.getP (pop.set j x) j = x := by
  simp [Slug.getP, List.getD_eq_getElem?_getD, List.getElem?_set_self, hj]

/-- Reading another entry after `List.set`. -/
theorem getP_set_ne (pop : List Person) (j k : Nat) (x : Person)
    (hk : k ≠ j) : Slug.getP (pop.set j x) k = Slug.getP pop k := by
  simp [Slug.getP, List.getD_eq_getElem?_getD, List.getElem?_set_ne (Ne.symm hk)]

/-- `infect` keeps the position. -/
theorem infect_position (q : Person) : q.infect.position = q.position := by
  unfold Person.infect
  split_ifs <;> rfl

/-- `infect` never creates an infectious person. -/
theorem infect_is_infectious (q : Person) :
    q.infect.is_infectious = q.is_infectious := by
  unfold Person.infect
  split_ifs with h
  · have hs : q.infection_state.state = State.Susceptible := by
      simpa [Person.is_susceptible, Person.state] using h
    simp [Person.set_state, Person.is_infectious, Person.state, hs]
  · rfl

/-- `infect` keeps the RNG, hence the coughing decision. -/
theorem infect_is_coughing (q : Person) : q.infect.is_coughing = q.is_coughing := by
  unfold Person.infect
  split_ifs <;> rfl

/-- `infect` keeps the RNG, hence the breathing decision. -/
theorem infect_is_breathing (q : Person) :
    q.infect.is_breathing = q.is_breathing := by
  unfold Person.infect
  split_ifs <;> rfl

/-- `infect` is idempotent. -/
theorem infect_infect (q : Person) : q.infect.infect = q.infect := by
  by_cases h : q.infection_state.state = State.Susceptible
  · simp [Person.infect, Person.is_susceptible, Person.state, Person.set_state, h]
  · simp [Person.infect, Person.is_susceptible, Person.state, h]

/-- `Mid` is reflexive. -/
theorem Mid_refl (pop : List Person) : Mid pop pop :=
  ⟨rfl, fun _ => Or.inl rfl⟩

/-- `Mid` composes. -/
theorem Mid_trans (a b c : List Person) (h1 : Mid a b) (h2 : Mid b c) :
    Mid a c := by
  refine ⟨h2.1.trans h1.1, fun k => ?_⟩
  rcases h2.2 k with h | h <;> rcases h1.2 k with h' | h' <;>
    rw [h, h'] <;> simp [infect_infect]

/-- The stable observables of an intermediate population. -/
theorem Mid_fields (pop₀ pop : List Person) (hM : Mid pop₀ pop) (k : Nat) :
    (Slug.getP pop k).position = (Slug.getP pop₀ k).position ∧
    (Slug.getP pop k).is_infectious = (Slug.getP pop₀ k).is_infectious ∧
    (Slug.getP pop k).is_coughing = (Slug.getP pop₀ k).is_coughing ∧
    (Slug.getP pop k).is_breathing = (Slug.getP pop₀ k).is_breathing := by
  rcases hM.2 k with h | h <;> rw [h] <;>
    simp [infect_position, infect_is_infectious, infect_is_coughing,
      infect_is_breathing]

/-- `infect_pair` preserves the population length. -/
theorem infect_pair_length (radius : Nat) (pop : List Person) (i j : Nat) :
    (Slug.infect_pair radius pop i j).length = pop.length := by
  simp only [Slug.infect_pair]
  split_ifs <;> simp

/-- Setting an infected copy of an entry is a `Mid` step. -/
theorem Mid_set_infect (pop : List Person) (m : Nat) :
    Mid pop (pop.set m (Slug.getP pop m).infect) := by
  refine ⟨by simp, fun k => ?_⟩
  by_cases hkm : k = m
  · subst hkm
    by_cases hm : k < pop.length
    · right
      rw [getP_set_self pop k _ hm]
    · left
      rw [List.set_eq_of_length_le (by omega)]
  · left
    exact getP_set_ne pop m k _ hkm

/-- `infect_pair` is a `Mid` step. -/
theorem Mid_infect_pair (radius : Nat) (pop : List Person) (i j : Nat) :
    Mid pop (Slug.infect_pair radius pop i j) := by
  simp only [Slug.infect_pair]
  split_ifs <;>
    first
    | exact Mid_refl pop
    | exact Mid_set_infect pop i
    | exact Mid_set_infect pop j
    | exact Mid_trans _ _ _ (Mid_set_infect pop j) (Mid_set_infect _ i)

/-- `infect_pair` leaves every index other than its two arguments unchanged. -/
theorem infect_pair_getP_other (radius : Nat) (pop : List Person) (i j k : Nat)
    (hki : k ≠ i) (hkj : k ≠ j) :
    Slug.getP (Slug.infect_pair radius pop i j) k = Slug.getP pop k := by
  simp only [Slug.infect_pair]
  split_ifs <;>
    simp only [getP_set_ne _ _ _ _ hki, getP_set_ne _ _ _ _ hkj]

/-- If the first direction of a pair fires, its target gets infected. -/
theorem infect_pair_getP_j_pos (radius : Nat) (pop : List Person) (i j : Nat)
    (hj : j < pop.length) (hij : i ≠ j)
    (hd : manhattan (Slug.getP pop i).position (Slug.getP pop j).position ≤ radius)
    (h1 : (Slug.getP pop i).is_infectious = true)
    (h2 : (Slug.getP pop i).is_coughing = true)
    (h3 : (Slug.getP pop j).is_breathing = true) :
    Slug.getP (Slug.infect_pair radius pop i j) j = (Slug.getP pop j).infect := by
  simp only [manhattan] at hd
  simp only [Slug.infect_pair]
  split_ifs with hc1 hc2 hc2'
  · rw [getP_set_ne _ _ _ _ (Ne.symm hij), getP_set_self _ _ _ hj]
  · rw [getP_set_self _ _ _ hj]
  · simp [h1, h2, h3] at hc1
  · simp [h1, h2, h3] at hc1

/-- If the first direction of a pair does not fire, its target keeps its
value. -/
theorem infect_pair_getP_j_neg (radius : Nat) (pop : List Person) (i j : Nat)
    (hij : i ≠ j)
    (hneg : ¬ (manhattan (Slug.getP pop i).position (Slug.getP pop j).position ≤ radius ∧
       (Slug.getP pop i).is_infectious = true ∧ (Slug.getP pop i).is_coughing = true ∧
       (Slug.getP pop j).is_breathing = true)) :
    Slug.getP (Slug.infect_pair radius pop i j) j = Slug.getP pop j := by
  simp only [manhattan] at hneg
  simp only [Slug.infect_pair]
  split_ifs with hdist hc1 hc2 hc2'
  · simp only [Bool.and_eq_true] at hc1
    exact absurd ⟨hdist, hc1.1.1, hc1.1.2, hc1.2⟩ hneg
  · simp only [Bool.and_eq_true] at hc1
    exact absurd ⟨hdist, hc1.1.1, hc1.1.2, hc1.2⟩ hneg
  · rw [getP_set_ne _ _ _ _ (Ne.symm hij)]
  · rfl
  · rfl

/-- If the second direction of a pair fires, its target gets infected. -/
theorem infect_pair_getP_i_pos (radius : Nat) (pop : List Person) (i j : Nat)
    (hi : i < pop.length) (hj : j < pop.length) (hij : i ≠ j)
    (hd : manhattan (Slug.getP pop i).position (Slug.getP pop j).position ≤ radius)
    (h1 : (Slug.getP pop j).is_infectious = true)
    (h2 : (Slug.getP pop j).is_coughing = true)
    (h3 : (Slug.getP pop i).is_breathing = true) :
    Slug.getP (Slug.infect_pair radius pop i j) i = (Slug.getP pop i).infect := by
  simp only [manhattan] at hd
  simp only [Slug.infect_pair]
  split_ifs with hc1 hc2 hc2'
  · rw [getP_set_self _ _ _ (by simpa using hi), getP_set_ne _ _ _ _ hij]
  · exfalso
    apply hc2
    rw [getP_set_self _ _ _ hj, getP_set_ne _ _ _ _ hij]
    simp [infect_is_infectious, infect_is_coughing, h1, h2, h3]
  · rw [getP_set_self _ _ _ hi]
  · simp [h1, h2, h3] at hc2'

/-- If the second direction of a pair does not fire, its target keeps its
value. -/
theorem infect_pair_getP_i_neg (radius : Nat) (pop : List Person) (i j : Nat)
    (hj : j < pop.length) (hij : i ≠ j)
    (hneg : ¬ (manhattan (Slug.getP pop i).position (Slug.getP pop j).position ≤ radius ∧
       (Slug.getP pop j).is_infectious = true ∧ (Slug.getP pop j).is_coughing = true ∧
       (Slug.getP pop i).is_breathing = true)) :
    Slug.getP (Slug.infect_pair radius pop i j) i = Slug.getP pop i := by
  simp only [manhattan] at hneg
  simp only [Slug.infect_pair]
  split_ifs with hdist hc1 hc2 hc2'
  · exfalso
    rw [getP_set_self _ _ _ hj, getP_set_ne _ _ _ _ hij] at hc2
    simp only [infect_is_infectious, infect_is_coughing, Bool.and_eq_true] at hc2
    exact hneg ⟨hdist, hc2.1.1, hc2.1.2, hc2.2⟩
  · rw [getP_set_ne _ _ _ _ hij]
  · exfalso
    simp only [Bool.and_eq_true] at hc2'
    exact hneg ⟨hdist, hc2'.1.1, hc2'.1.2, hc2'.2⟩
  · rfl
  · rfl

/-- Pair processing preserves the population length. -/
theorem applyPairs_length (radius : Nat) (L : List (Nat × Nat)) (pop : List Person) :
    (applyPairs radius L pop).length = pop.length := by
  induction L generalizing pop with
  | nil => rfl
  | cons p L ih =>
    simp only [applyPairs, List.foldl_cons] at ih ⊢
    rw [ih, infect_pair_length]

/-- The pair trigger only depends on the stable observables, so it transfers
between a population and any of its infection intermediates. -/
theorem pairTrig_stable (radius : Nat) (pop₀ pop : List Person)
    (hM : Mid pop₀ pop) (i j k : Nat) :
    pairTrig radius pop i j k ↔ pairTrig radius pop₀ i j k := by
  obtain ⟨hpi, hii, hci, hbi⟩ := Mid_fields pop₀ pop hM i
  obtain ⟨hpj, hij2, hcj, hbj⟩ := Mid_fields pop₀ pop hM j
  unfold pairTrig
  rw [hpi, hii, hci, hbi, hpj, hij2, hcj, hbj]

/-- Characterization of processing a list of pairs, starting from any
infection intermediate of `pop₀`: an index ends up infected exactly when some
listed pair triggers it. -/
theorem applyPairs_getP (radius : Nat) (pop₀ : List Person) (L : List (Nat × Nat)) :
    ∀ pop : List Person, Mid pop₀ pop →
    (∀ ij ∈ L, ij.1 < pop₀.length ∧ ij.2 < pop₀.length ∧ ij.1 ≠ ij.2) →
    ∀ k : Nat,
    ((∃ ij ∈ L, pairTrig radius pop₀ ij.1 ij.2 k) →
       Slug.getP (applyPairs radius L pop) k = (Slug.getP pop k).infect) ∧
    ((∀ ij ∈ L, ¬ pairTrig radius pop₀ ij.1 ij.2 k) →
       Slug.getP (applyPairs radius L pop) k = Slug.getP pop k) := by
  induction L with
  | nil =>
    intro pop hM hV k
    exact ⟨(by rintro ⟨ij, hij, -⟩; cases hij), fun _ => rfl⟩
  | cons p L ih =>
    intro pop hM hV k
    obtain ⟨hp1, hp2, hp12⟩ := hV p (List.mem_cons_self p L)
    have hVL : ∀ ij ∈ L, ij.1 < pop₀.length ∧ ij.2 < pop₀.length ∧ ij.1 ≠ ij.2 :=
      fun ij h => hV ij (List.mem_cons_of_mem p h)
    have hlen : pop.length = pop₀.length := hM.1
    have hM' : Mid pop₀ (Slug.infect_pair radius pop p.1 p.2) :=
      Mid_trans _ _ _ hM (Mid_infect_pair radius pop p.1 p.2)
    have happ : applyPairs radius (p :: L) pop =
        applyPairs radius L (Slug.infect_pair radius pop p.1 p.2) := rfl
    have hstep_pos : pairTrig radius pop₀ p.1 p.2 k →
        Slug.getP (Slug.infect_pair radius pop p.1 p.2) k = (Slug.getP pop k).infect := by
      intro ht
      have ht' := (pairTrig_stable radius pop₀ pop hM p.1 p.2 k).mpr ht
      rcases ht' with ⟨rfl, hd, h1, h2, h3⟩ | ⟨rfl, hd, h1, h2, h3⟩
      · exact infect_pair_getP_j_pos radius pop p.1 p.2 (by omega) hp12 hd h1 h2 h3
      · exact infect_pair_getP_i_pos radius pop p.1 p.2 (by omega) (by omega) hp12 hd h1 h2 h3
    have hstep_neg : ¬ pairTrig radius pop₀ p.1 p.2 k →
        Slug.getP (Slug.infect_pair radius pop p.1 p.2) k = Slug.getP pop k := by
      intro ht
      have ht' : ¬ pairTrig radius pop p.1 p.2 k :=
        fun hc => ht ((pairTrig_stable radius pop₀ pop hM p.1 p.2 k).mp hc)
      by_cases hkj : k = p.2
      · subst hkj
        apply infect_pair_getP_j_neg radius pop p.1 p.2 hp12
        rintro ⟨hd, h1, h2, h3⟩
        exact ht' (Or.inl ⟨rfl, hd, h1, h2, h3⟩)
      · by_cases hki : k = p.1
        · subst hki
          apply infect_pair_getP_i_neg radius pop p.1 p.2 (by omega) hp12
          rintro ⟨hd, h1, h2, h3⟩
          exact ht' (Or.inr ⟨rfl, hd, h1, h2, h3⟩)
        · exact infect_pair_getP_other radius pop p.1 p.2 k hki hkj
    have IH := ih (Slug.infect_pair radius pop p.1 p.2) hM' hVL k
    constructor
    · rintro ⟨ij, hmem, htrig⟩
      rcases List.mem_cons.mp hmem with rfl | hmemL
      · by_cases hex : ∃ ij ∈ L, pairTrig radius pop₀ ij.1 ij.2 k
        · rw [happ, IH.1 hex, hstep_pos htrig, infect_infect]
        · push_neg at hex
          rw [happ, IH.2 hex, hstep_pos htrig]
      · by_cases hhead : pairTrig radius pop₀ p.1 p.2 k
        · by_cases hex : ∃ ij ∈ L, pairTrig radius pop₀ ij.1 ij.2 k
          · rw [happ, IH.1 hex, hstep_pos hhead, infect_infect]
          · push_neg at hex
            rw [happ, IH.2 hex, hstep_pos hhead]
        · rw [happ, IH.1 ⟨ij, hmemL, htrig⟩, hstep_neg hhead]
    · intro hall
      have hhead := hall p (List.mem_cons_self p L)
      have hallL : ∀ ij ∈ L, ¬ pairTrig radius pop₀ ij.1 ij.2 k :=
        fun ij h => hall ij (List.mem_cons_of_mem p h)
      rw [happ, IH.2 hallL, hstep_neg hhead]

/-- A fold over a flattened list is the nested fold. -/
theorem foldl_flatMap_eq {α β γ : Type} (g : γ → β → γ) (f : α → List β)
    (l : List α) (x : γ) :
    (l.flatMap f).foldl g x = l.foldl (fun acc a => (f a).foldl g acc) x := by
  induction l generalizing x with
  | nil => rfl
  | cons a l ih => simp [List.flatMap_cons, List.foldl_append, ih]

/-- The nested infection loop processes exactly the pairs `i < j` in order. -/
theorem infect_all_eq_applyPairs (radius : Nat) (pop : List Person) :
    Slug.infect_all radius pop = applyPairs radius (allPairs pop.length) pop := by
  unfold Slug.infect_all applyPairs allPairs
  simp only [foldl_flatMap_eq, List.foldl_map]

/-- Membership in the pair list. -/
theorem mem_allPairs (n i j : Nat) : (i, j) ∈ allPairs n ↔ i < j ∧ j < n := by
  unfold allPairs
  simp only [List.mem_flatMap, List.mem_map, List.mem_range, List.mem_range'_1,
    Prod.mk.injEq]
  constructor
  · rintro ⟨a, ha, b, hb, rfl, rfl⟩
    omega
  · rintro ⟨h1, h2⟩
    exact ⟨i, by omega, j, by omega, rfl, rfl⟩

/-- The Manhattan distance is symmetric. -/
theorem manhattan_comm (a b : Xy) : manhattan a b = manhattan b a := by
  unfold manhattan
  omega

/-- C5: in the infection resolution of the serial reference tick, both
directions of every unordered pair within the infection radius are evaluated:
a person ends up infected exactly when it breathes and some other person
within Manhattan distance `infection_radius` is infectious and coughing;
`infect()` is a no-op unless the target is susceptible, in which case it
becomes Infected with dwell 0, and no person becomes infectious within the
same infection pass. -/
theorem C5_infection_resolution (radius : Nat) (pop : List Person) :
    (Slug.infect_all radius pop).length = pop.length ∧
    (∀ k, k < pop.length → triggers radius pop k →
       Slug.getP (Slug.infect_all radius pop) k = (Slug.getP pop k).infect) ∧
    (∀ k, k < pop.length → ¬ triggers radius pop k →
       Slug.getP (Slug.infect_all radius pop) k = Slug.getP pop k) ∧
    (∀ q : Person, q.is_susceptible →
       q.infect.infection_state = ⟨State.Infected, 0⟩) ∧
    (∀ q : Person, ¬ q.is_susceptible → q.infect = q) ∧
    (∀ k, k < pop.length →
       (Slug.getP (Slug.infect_all radius pop) k).is_infectious =
         (Slug.getP pop k).is_infectious) := by
  have hV : ∀ ij ∈ allPairs pop.length,
      ij.1 < pop.length ∧ ij.2 < pop.length ∧ ij.1 ≠ ij.2 := by
    rintro ⟨i, j⟩ hmem
    have := (mem_allPairs pop.length i j).mp hmem
    exact ⟨by omega, by omega, by omega⟩
  have hmain := applyPairs_getP radius pop (allPairs pop.length) pop
    (Mid_refl pop) hV
  have hpos : ∀ k, k < pop.length → triggers radius pop k →
      Slug.getP (Slug.infect_all radius pop) k = (Slug.getP pop k).infect := by
    intro k hk ht
    obtain ⟨m, hm, hmk, hd, h1, h2, h3⟩ := ht
    rw [infect_all_eq_applyPairs]
    apply (hmain k).1
    rcases Nat.lt_or_ge m k with hmlt | hmge
    · refine ⟨(m, k), (mem_allPairs pop.length m k).mpr ⟨hmlt, hk⟩, Or.inl ?_⟩
      exact ⟨rfl, hd, h1, h2, h3⟩
    · have hklt : k < m := by omega
      refine ⟨(k, m), (mem_allPairs pop.length k m).mpr ⟨hklt, hm⟩, Or.inr ?_⟩
      refine ⟨rfl, ?_, h1, h2, h3⟩
      rw [manhattan_comm]
      exact hd
  have hneg : ∀ k, k < pop.length → ¬ triggers radius pop k →
      Slug.getP (Slug.infect_all radius pop) k = Slug.getP pop k := by
    intro k hk ht
    rw [infect_all_eq_applyPairs]
    apply (hmain k).2
    rintro ⟨i, j⟩ hmem htrig
    have hij := (mem_allPairs pop.length i j).mp hmem
    rcases htrig with ⟨rfl, hd, h1, h2, h3⟩ | ⟨rfl, hd, h1, h2, h3⟩
    · exact ht ⟨i, by omega, by omega, hd, h1, h2, h3⟩
    · refine ht ⟨j, by omega, by omega, ?_, h1, h2, h3⟩
      rw [manhattan_comm]
      exact hd
  refine ⟨?_, hpos, hneg, ?_, ?_, ?_⟩
  · rw [infect_all_eq_applyPairs, applyPairs_length]
  · intro q hq
    simp [Person.infect, hq, Person.set_state]
  · intro q hq
    simp [Person.infect, hq]
  · intro k hk
    by_cases ht : triggers radius pop k
    · rw [hpos k hk ht, infect_is_infectious]
    · rw [hneg k hk ht]

/-!
Helper lemmas for the movement loop of `Slug::tick`.
-/

/-- Setting the element right after a prefix. -/
theorem set_append_cons {α : Type} (pre : List α) (a b : α) (l : List α) :
    (pre ++ a :: l).set pre.length b = pre ++ b :: l := by
  induction pre with
  | nil => rfl
  | cons x pre ih => simp [ih]

/-- Replacing the middle element of a duplicate-free list by a value that
occurs nowhere in the list keeps it duplicate-free. -/
theorem nodup_replace_middle {α : Type} [DecidableEq α] (pre l : List α) (a b : α)
    (hnd : (pre ++ a :: l).Nodup) (hb : b ∉ pre ++ a :: l) :
    (pre ++ b :: l).Nodup := by
  rw [List.nodup_middle, List.nodup_cons] at hnd ⊢
  refine ⟨fun hmem => hb ?_, hnd.2⟩
  rcases List.mem_append.mp hmem with hm | hm
  · exact List.mem_append.mpr (Or.inl hm)
  · exact List.mem_append.mpr (Or.inr (List.mem_cons_of_mem a hm))

/-- A successful `Person::tick` either keeps the position (a bump) or moves to
a cell that coincides with no entry of `positions` and no ghost. -/
theorem tick_position_cases (p p' : Person) (grid : Rectangle)
    (obstacles : List Rectangle) (positions ghosts : List Xy)
    (h : p.tick grid obstacles positions ghosts = Except.ok p') :
    p'.position = p.position ∨
      (p'.position ∉ positions ∧ p'.position ∉ ghosts) := by
  rw [tick_as_move] at h
  obtain ⟨-, -, -, -, -, h1, h2, h3, h4⟩ := tickMove_spec _ _ _ _ _ _ h
  by_cases hg : grid.contains (p.position + velocityOf p) = true
  · by_cases hob : obstacles.any
        (fun o => o.contains (p.position + velocityOf p)) = true
    · left
      rw [h2 hg hob]
      rfl
    · by_cases hmem : (p.position + velocityOf p ∈ positions ∨
          p.position + velocityOf p ∈ ghosts)
      · left
        rw [h3 hg hob hmem]
        rfl
      · right
        push_neg at hmem
        rw [(h4 hg hob (by push_neg; exact hmem)).2]
        exact ⟨hmem.1, hmem.2⟩
  · left
    rw [h1 hg]
    rfl

/-- Invariant of the movement loop: starting with the position vector split as
a moved prefix and the pre-move positions of the remaining persons, a
successful run returns the position vector of the final population, and it
preserves distinctness of all positions. -/
theorem move_loop_spec (grid : Rectangle) (obstacles : List Rectangle) :
    ∀ (rest : List Person) (pre ghosts : List Xy)
      (rest' : List Person) (positions' ghosts' : List Xy),
    Slug.move_loop grid obstacles pre.length rest
        (pre ++ rest.map Person.position) ghosts =
      Except.ok (rest', positions', ghosts') →
    positions' = pre ++ rest'.map Person.position ∧
    ((pre ++ rest.map Person.position).Nodup →
       (pre ++ rest'.map Person.position).Nodup) := by
  intro rest
  induction rest with
  | nil =>
    intro pre ghosts rest' positions' ghosts' h
    simp only [Slug.move_loop, List.map_nil] at h
    injection h with h2
    obtain ⟨h_a, h_b, h_c⟩ : rest' = [] ∧ pre ++ [] = positions' ∧ ghosts = ghosts' := by
      simpa [Prod.ext_iff] using h2
    subst h_a
    constructor
    · simp [← h_b]
    · intro hnd
      simpa using hnd
  | cons p rest ih =>
    intro pre ghosts rest' positions' ghosts' h
    simp only [Slug.move_loop, List.map_cons] at h
    split at h
    · exact Except.noConfusion h
    · next p' htick =>
      rw [set_append_cons] at h
      split at h
      · exact Except.noConfusion h
      · next rest'' positions'' ghosts'' heq2 =>
        injection h with h2
        obtain ⟨h_a, h_b, h_c⟩ : p' :: rest'' = rest' ∧ positions'' = positions' ∧
            ghosts'' = ghosts' := by
          simpa [Prod.ext_iff] using h2
        subst h_a h_b h_c
        have heq2' : Slug.move_loop grid obstacles (pre ++ [p'.position]).length rest
            ((pre ++ [p'.position]) ++ rest.map Person.position) (ghosts ++ [p.position]) =
            Except.ok (rest'', positions'', ghosts'') := by
          simpa [List.append_assoc] using heq2
        obtain ⟨ih1, ih2⟩ := ih (pre ++ [p'.position]) (ghosts ++ [p.position])
          rest'' positions'' ghosts'' heq2'
        have hcases := tick_position_cases p p' grid obstacles _ _ htick
        constructor
        · rw [ih1]
          simp [List.append_assoc]
        · intro hnd
          have hnd1 : (pre ++ p'.position :: rest.map Person.position).Nodup := by
            rcases hcases with hsame | ⟨hm, -⟩
            · rw [hsame]
              exact hnd
            · exact nodup_replace_middle pre _ p.position p'.position hnd hm
          have := ih2 (by simpa [List.append_assoc] using hnd1)
          simpa [List.append_assoc] using this

/-- Every pair-processing fold is a `Mid` step. -/
theorem Mid_applyPairs (radius : Nat) (L : List (Nat × Nat)) :
    ∀ pop : List Person, Mid pop (applyPairs radius L pop) := by
  induction L with
  | nil => exact fun pop => Mid_refl pop
  | cons p L ih =>
    intro pop
    exact Mid_trans _ _ _ (Mid_infect_pair radius pop p.1 p.2) (ih _)

/-- The whole infection pass is a `Mid` step. -/
theorem Mid_infect_all (radius : Nat) (pop : List Person) :
    Mid pop (Slug.infect_all radius pop) := by
  rw [infect_all_eq_applyPairs]
  exact Mid_applyPairs radius (allPairs pop.length) pop

/-- In-range indexing as `getP`. -/
theorem getElem?_eq_getP (l : List Person) (i : Nat) (hi : i < l.length) :
    l[i]? = some (Slug.getP l i) := by
  rw [List.getElem?_eq_getElem hi]
  simp [Slug.getP, List.getD_eq_getElem?_getD, List.getElem?_eq_getElem hi]

/-- The infection pass does not change any position. -/
theorem Mid_map_position (a b : List Person) (hM : Mid a b) :
    b.map Person.position = a.map Person.position := by
  apply List.ext_getElem?
  intro i
  rw [List.getElem?_map, List.getElem?_map]
  by_cases hi : i < a.length
  · rw [getElem?_eq_getP a i hi, getElem?_eq_getP b i (by rw [hM.1]; exact hi)]
    rcases hM.2 i with h | h <;> rw [h] <;> simp [infect_position]
  · have ha : a[i]? = none := List.getElem?_eq_none (by omega)
    have hb : b[i]? = none := List.getElem?_eq_none (by rw [hM.1]; omega)
    rw [ha, hb]

/-- `extend_output` only appends to the trace and the statistics. -/
theorem extend_output_fields (sl sl' : Slug) (h : sl.extend_output = some sl') :
    sl'.population = sl.population ∧ sl'.positions = sl.positions ∧
    sl'.ghosts = sl.ghosts ∧ sl'.scenario = sl.scenario := by
  unfold Slug.extend_output Slug.extend_statistics at h
  split_ifs at h <;>
  · obtain ⟨st, -, heq⟩ := Option.map_eq_some'.mp h
    subst heq
    exact ⟨rfl, rfl, rfl, rfl⟩

/-- C8: the serial reference tick preserves position distinctness — a person
may only move to a cell that equals no current position and no pre-move ghost
position, so a population on pairwise distinct cells stays on pairwise
distinct cells (which in particular forbids swapping cells). -/
theorem C8_distinct_after_tick (sl sl' : Slug)
    (hpos : sl.positions = sl.population.map Person.position)
    (hnd : (sl.population.map Person.position).Nodup)
    (h : sl.tick = some sl') :
    (sl'.population.map Person.position).Nodup ∧
    sl'.positions = sl'.population.map Person.position ∧
    (∀ (p p' : Person) (grid : Rectangle) (obstacles : List Rectangle)
       (positions ghosts : List Xy),
       p.tick grid obstacles positions ghosts = Except.ok p' →
       p'.position = p.position ∨
         (p'.position ∉ positions ∧ p'.position ∉ ghosts)) := by
  unfold Slug.tick at h
  split at h
  · exact Option.noConfusion h
  · next pop' positions' ghosts' heq =>
    have heq' : Slug.move_loop sl.scenario.grid sl.scenario.obstacles
        ([] : List Xy).length sl.population
        (([] : List Xy) ++ sl.population.map Person.position) sl.ghosts =
        Except.ok (pop', positions', ghosts') := by
      simpa [hpos] using heq
    obtain ⟨hp', hnd'⟩ := move_loop_spec _ _ sl.population [] sl.ghosts
      pop' positions' ghosts' heq'
    simp only [List.nil_append] at hp' hnd'
    obtain ⟨hpop, hpos2, -, -⟩ := extend_output_fields _ _ h
    have hmapeq : (Slug.infect_all sl.scenario.parameters.infection_radius pop').map
        Person.position = pop'.map Person.position :=
      Mid_map_position pop' _ (Mid_infect_all _ pop')
    refine ⟨?_, ?_, tick_position_cases⟩
    · rw [hpop]
      simp only [hmapeq]
      exact hnd' hnd
    · rw [hpos2, hpop]
      simp only [hmapeq]
      exact hp'

set_option maxRecDepth 10000 in
/-- Witness for C8 at a concrete two-person state. -/
theorem C8_witness :
    (wSlug.positions = wSlug.population.map Person.position ∧
     (wSlug.population.map Person.position).Nodup ∧
     wSlug.tick = some wSlugAfter) ∧
    (wSlugAfter.population.map Person.position).Nodup :=
  ⟨⟨by decide, by decide, by rfl⟩,
   (C8_distinct_after_tick wSlug wSlugAfter (by decide) (by decide) (by rfl)).1⟩

/-!
Helper lemmas for the output series of the serial reference (`creep`).
-/

/-- Unfolding the tick loop from the back. -/
theorem run_ticks_succ (n : Nat) :
    ∀ sl : Slug, Slug.run_ticks (n + 1) sl = (Slug.run_ticks n sl).bind Slug.tick := by
  induction n with
  | zero =>
    intro sl
    simp [Slug.run_ticks]
  | succ n ih =>
    intro sl
    show (Slug.tick sl).bind (Slug.run_ticks (n + 1)) =
      ((Slug.tick sl).bind (Slug.run_ticks n)).bind Slug.tick
    cases htick : Slug.tick sl with
    | none => rfl
    | some sl2 =>
      show Slug.run_ticks (n + 1) sl2 = (Slug.run_ticks n sl2).bind Slug.tick
      exact ih sl2

/-- Unfolding the simulated prefix from the back. -/
theorem slugAt_succ (s : Scenario) (t : Nat) :
    slugAt s (t + 1) = (slugAt s t).bind Slug.tick := by
  unfold slugAt
  cases hnew : Slug.new s with
  | none => rfl
  | some sl => simp [run_ticks_succ]

/-- `pushStat` updates exactly the first entry of its key and keeps all keys. -/
theorem pushStat_spec (key : String) (v : Statistics) :
    ∀ st : List (String × List Statistics), key ∈ st.map Prod.fst →
    ∃ st', Slug.pushStat st key v = some st' ∧
      st'.map Prod.fst = st.map Prod.fst ∧
      List.lookup key st' = (List.lookup key st).map (fun l => l ++ [v]) ∧
      (∀ k2, k2 ≠ key → List.lookup k2 st' = List.lookup k2 st) := by
  intro st
  induction st with
  | nil => intro hmem; simp at hmem
  | cons kl st ih =>
    intro hmem
    obtain ⟨k, l⟩ := kl
    by_cases hk : k = key
    · subst hk
      refine ⟨(k, l ++ [v]) :: st, ?_, by simp, ?_, ?_⟩
      · simp [Slug.pushStat]
      · simp [List.lookup]
      · intro k2 hk2
        simp [List.lookup, beq_false_of_ne hk2]
    · have hmem' : key ∈ st.map Prod.fst := by
        rcases List.mem_map.mp hmem with ⟨a, ha, hf⟩
        rcases List.mem_cons.mp ha with rfl | ha'
        · exact absurd hf hk
        · exact List.mem_map.mpr ⟨a, ha', hf⟩
      obtain ⟨st', hpush, hkeys, hkey, hother⟩ := ih hmem'
      refine ⟨(k, l) :: st', ?_, by simp [hkeys], ?_, ?_⟩
      · simp [Slug.pushStat, hk, hpush]
      · simp [List.lookup, beq_false_of_ne (Ne.symm hk), hkey]
      · intro k2 hk2
        by_cases hk2k : k2 = k
        · subst hk2k
          simp [List.lookup]
        · simp [List.lookup, beq_false_of_ne hk2k, hother k2 hk2]

/-- Looking up any present key in the freshly initialized statistics map
yields the empty row list. -/
theorem lookup_stats_init (qs : List (String × Query)) (k : String)
    (hmem : k ∈ qs.map Prod.fst) :
    List.lookup k (qs.map fun kq => (kq.1, ([] : List Statistics))) = some [] := by
  induction qs with
  | nil => simp at hmem
  | cons kq qs ih =>
    by_cases hk : k = kq.1
    · subst hk
      simp [List.lookup]
    · have hmem' : k ∈ qs.map Prod.fst := by
        rcases List.mem_map.mp hmem with ⟨a, ha, hf⟩
        rcases List.mem_cons.mp ha with rfl | ha'
        · exact absurd hf.symm hk
        · exact List.mem_map.mpr ⟨a, ha', hf⟩
      simp [List.lookup, beq_false_of_ne hk, ih hmem']

/-- Folding `pushStat` over the queries appends one row per present key. -/
theorem foldStats_spec (f : Query → Statistics) :
    ∀ (qs : List (String × Query)) (st : List (String × List Statistics)),
    (∀ kq ∈ qs, kq.1 ∈ st.map Prod.fst) →
    (qs.map Prod.fst).Nodup →
    ∃ st', qs.foldlM (fun acc kq => Slug.pushStat acc kq.1 (f kq.2)) st = some st' ∧
      st'.map Prod.fst = st.map Prod.fst ∧
      (∀ kq ∈ qs, List.lookup kq.1 st' =
         (List.lookup kq.1 st).map (fun l => l ++ [f kq.2])) ∧
      (∀ k2, k2 ∉ qs.map Prod.fst → List.lookup k2 st' = List.lookup k2 st) := by
  intro qs
  induction qs with
  | nil =>
    intro st hmem hnd
    exact ⟨st, rfl, rfl, by simp, fun _ _ => rfl⟩
  | cons kq qs ih =>
    intro st hmem hnd
    obtain ⟨st1, hpush, hkeys1, hkey1, hother1⟩ :=
      pushStat_spec kq.1 (f kq.2) st (hmem kq (List.mem_cons_self kq qs))
    have hmem1 : ∀ kq2 ∈ qs, kq2.1 ∈ st1.map Prod.fst := by
      intro kq2 h2
      rw [hkeys1]
      exact hmem kq2 (List.mem_cons_of_mem kq h2)
    have hnd1 : (qs.map Prod.fst).Nodup := (List.nodup_cons.mp (by simpa using hnd)).2
    have hknotin : kq.1 ∉ qs.map Prod.fst := (List.nodup_cons.mp (by simpa using hnd)).1
    obtain ⟨st', hfold, hkeys, hqs, hother⟩ := ih st1 hmem1 hnd1
    refine ⟨st', ?_, hkeys.trans hkeys1, ?_, ?_⟩
    · simp only [List.foldlM_cons, hpush, Option.bind_eq_bind]
      simpa using hfold
    · intro kq2 h2
      rcases List.mem_cons.mp h2 with rfl | h2'
      · rw [hother kq2.1 hknotin, hkey1]
      · have hne : kq2.1 ≠ kq.1 := by
          intro heq
          exact hknotin (heq ▸ List.mem_map.mpr ⟨kq2, h2', rfl⟩)
        rw [hqs kq2 h2', hother1 kq2.1 hne]
    · intro k2 hk2
      have hk2a : k2 ∉ qs.map Prod.fst := fun hc => hk2 (by simp [hc])
      have hk2b : k2 ≠ kq.1 := fun hc => hk2 (by simp [hc])
      rw [hother k2 hk2a, hother1 k2 hk2b]

/-- Full characterization of `extend_output` on a state whose statistics hold
every query key: it appends one statistics row per query (counting the current
population over the query area) and one trace entry when tracing is on. -/
theorem extend_output_spec (sl : Slug)
    (hkeys : ∀ kq ∈ sl.scenario.queries, kq.1 ∈ sl.statistics.map Prod.fst)
    (hnd : (sl.scenario.queries.map Prod.fst).Nodup) :
    ∃ sl', sl.extend_output = some sl' ∧
      sl'.population = sl.population ∧ sl'.scenario = sl.scenario ∧
      sl'.positions = sl.positions ∧ sl'.ghosts = sl.ghosts ∧
      sl'.statistics.map Prod.fst = sl.statistics.map Prod.fst ∧
      (∀ kq ∈ sl.scenario.queries, List.lookup kq.1 sl'.statistics =
         (List.lookup kq.1 sl.statistics).map
           (fun l => l ++ [countStats sl.population kq.2])) ∧
      (∀ k2, k2 ∉ sl.scenario.queries.map Prod.fst →
         List.lookup k2 sl'.statistics = List.lookup k2 sl.statistics) ∧
      sl'.trace = sl.trace ++
        (if sl.scenario.trace then [⟨sl.population.map Person.info⟩] else []) := by
  obtain ⟨st', hfold, hkeys', hqs, hother⟩ :=
    foldStats_spec (fun q => countStats sl.population q) sl.scenario.queries
      sl.statistics hkeys hnd
  have keyT : Slug.extend_statistics
      { sl with trace := sl.trace ++ [⟨sl.population.map Person.info⟩] } =
      (sl.scenario.queries.foldlM
        (fun acc kq => Slug.pushStat acc kq.1 (countStats sl.population kq.2))
        sl.statistics).map
        fun st => { sl with
          trace := sl.trace ++ [⟨sl.population.map Person.info⟩],
          statistics := st } := rfl
  have keyF : Slug.extend_statistics sl =
      (sl.scenario.queries.foldlM
        (fun acc kq => Slug.pushStat acc kq.1 (countStats sl.population kq.2))
        sl.statistics).map
        fun st => { sl with statistics := st } := rfl
  unfold Slug.extend_output
  split_ifs with htr
  · rw [keyT, hfold]
    exact ⟨_, rfl, rfl, rfl, rfl, rfl, hkeys', hqs, hother, by simp [htr]⟩
  · rw [keyF, hfold]
    exact ⟨_, rfl, rfl, rfl, rfl, rfl, hkeys', hqs, hother, by simp [htr]⟩

/-- Invariant of the serial reference over time: after `t` ticks the state
carries `t + 1` statistics rows per query — row `j` counting the population
after `j` ticks over the query area — and `t + 1` trace entries when tracing
is on. -/
theorem slugAt_spec (s : Scenario) (hnd : (s.queries.map Prod.fst).Nodup) :
    ∀ t sl, slugAt s t = some sl →
      sl.scenario = s ∧
      sl.statistics.map Prod.fst = s.queries.map Prod.fst ∧
      sl.trace.length = (if s.trace then t + 1 else 0) ∧
      (∀ kq ∈ s.queries, ∃ l, List.lookup kq.1 sl.statistics = some l ∧
         l.length = t + 1 ∧
         ∀ j, j ≤ t → l[j]? = (popAt s j).map fun pop => countStats pop kq.2) := by
  intro t
  induction t with
  | zero =>
    intro sl h
    have h0 : Slug.extend_output
        ⟨s, s.population.enum.map (fun ip => Person.new ip.1 ip.2 s.parameters),
         [], s.queries.map (fun kq => (kq.1, [])),
         (s.population.enum.map (fun ip => Person.new ip.1 ip.2 s.parameters)).map
           (fun p => p.position), []⟩ = some sl := by
      have hrw : slugAt s 0 = Slug.new s := by
        unfold slugAt
        cases Slug.new s <;> rfl
      rw [hrw] at h
      exact h
    obtain ⟨sl', heq, hpop, hscen, -, -, hkeys, hqs, -, htr⟩ :=
      extend_output_spec
        ⟨s, s.population.enum.map (fun ip => Person.new ip.1 ip.2 s.parameters),
         [], s.queries.map (fun kq => (kq.1, [])),
         (s.population.enum.map (fun ip => Person.new ip.1 ip.2 s.parameters)).map
           (fun p => p.position), []⟩
        (by intro kq hkq
            show kq.1 ∈ (s.queries.map fun kq => (kq.1, ([] : List Statistics))).map Prod.fst
            rw [List.map_map]
            exact List.mem_map.mpr ⟨kq, hkq, rfl⟩)
        (by simpa using hnd)
    rw [heq] at h0
    injection h0 with h0
    subst h0
    refine ⟨hscen, ?_, ?_, ?_⟩
    · rw [hkeys]
      simp
    · rw [htr]
      by_cases htrf : s.trace <;> simp [htrf]
    · intro kq hkq
      have hlook := hqs kq hkq
      rw [lookup_stats_init s.queries kq.1 (List.mem_map.mpr ⟨kq, hkq, rfl⟩)] at hlook
      refine ⟨_, hlook, by simp, ?_⟩
      intro j hj
      interval_cases j
      have hpop0 : popAt s 0 = some sl'.population := by
        unfold popAt
        rw [h]
        rfl
      rw [hpop0]
      simp [hpop]
  | succ t ih =>
    intro sl' h
    have hstep : (slugAt s t).bind Slug.tick = some sl' := by
      rw [← slugAt_succ]
      exact h
    obtain ⟨sl, hAt, htick⟩ := Option.bind_eq_some.mp hstep
    obtain ⟨hscen, hkeys, htrlen, hqs⟩ := ih sl hAt
    unfold Slug.tick at htick
    split at htick
    · exact Option.noConfusion htick
    · next pop' positions' ghosts' heq =>
      set M : Slug := { sl with
        population := Slug.infect_all sl.scenario.parameters.infection_radius pop',
        positions := positions', ghosts := [] } with hMdef
      obtain ⟨sl'', heq2, hpop, hscen2, -, -, hkeys2, hqs2, -, htr2⟩ :=
        extend_output_spec M
          (by intro kq hkq
              have hkq' : kq ∈ s.queries := by
                rw [← hscen]
                exact hkq
              show kq.1 ∈ sl.statistics.map Prod.fst
              rw [hkeys]
              exact List.mem_map.mpr ⟨kq, hkq', rfl⟩)
          (by show (sl.scenario.queries.map Prod.fst).Nodup
              rw [hscen]
              exact hnd)
      rw [heq2] at htick
      injection htick with htick
      subst htick
      have hpopAt : popAt s (t + 1) = some sl''.population := by
        unfold popAt
        rw [h]
        rfl
      refine ⟨hscen2.trans hscen, hkeys2.trans hkeys, ?_, ?_⟩
      · rw [htr2]
        by_cases htrf : s.trace <;>
          simp_all [hMdef, List.length_append]
      · intro kq hkq
        have hkq2 : kq ∈ M.scenario.queries := by
          show kq ∈ sl.scenario.queries
          rw [hscen]
          exact hkq
        have hlook := hqs2 kq hkq2
        obtain ⟨l, hl, hlen, hget⟩ := hqs kq hkq
        rw [show List.lookup kq.1 M.statistics = List.lookup kq.1 sl.statistics
            from rfl, hl] at hlook
        refine ⟨_, hlook, by simp [hlen], ?_⟩
        intro j hj
        rcases Nat.lt_or_ge j (t + 1) with hjt | hjt
        · rw [List.getElem?_append_left (by omega), hget j (by omega)]
        · have hj1 : j = t + 1 := by omega
          subst hj1
          rw [List.getElem?_append_right (by omega), hpopAt]
          simp [hlen, hpop]

/-- C9: the output of the serial reference holds, for every query, a
statistics series of length `ticks + 1` — entry `j` counting exactly the
persons of the population after `j` ticks whose position lies in the query
area, bucketed by state — and a trace of `ticks + 1` entries when the trace
flag is set, else an empty trace. -/
theorem C9_output_series (s : Scenario) (out : Output)
    (hnd : (s.queries.map Prod.fst).Nodup)
    (h : creep s = some out) :
    out.trace.length = (if s.trace then s.ticks + 1 else 0) ∧
    out.statistics.map Prod.fst = s.queries.map Prod.fst ∧
    (∀ kq ∈ s.queries, ∃ l, List.lookup kq.1 out.statistics = some l ∧
       l.length = s.ticks + 1 ∧
       ∀ j, j ≤ s.ticks → l[j]? = (popAt s j).map fun pop => countStats pop kq.2) := by
  unfold creep at h
  cases hnew : Slug.new s with
  | none =>
    rw [hnew] at h
    cases h
  | some sl =>
    rw [hnew] at h
    have h' : (Slug.run_ticks sl.scenario.ticks sl).map Slug.into_output = some out := h
    have hscen0 : sl.scenario = s := by
      have hnew2 : Slug.extend_output
          ⟨s, s.population.enum.map (fun ip => Person.new ip.1 ip.2 s.parameters),
           [], s.queries.map (fun kq => (kq.1, [])),
           (s.population.enum.map (fun ip => Person.new ip.1 ip.2 s.parameters)).map
             (fun p => p.position), []⟩ = some sl := hnew
      exact (extend_output_fields _ sl hnew2).2.2.2
    rw [hscen0] at h'
    obtain ⟨slT, hrun, hout⟩ := Option.map_eq_some'.mp h'
    have hAt : slugAt s s.ticks = some slT := by
      unfold slugAt
      rw [hnew]
      exact hrun
    obtain ⟨-, hkeys, htrlen, hqs⟩ := slugAt_spec s hnd s.ticks slT hAt
    subst hout
    exact ⟨htrlen, hkeys, hqs⟩

/-- Witness for C9 at a concrete scenario. -/
theorem C9_witness :
    ((wScn9.queries.map Prod.fst).Nodup ∧ creep wScn9 = some wOut9) ∧
    wOut9.trace.length = (if wScn9.trace then wScn9.ticks + 1 else 0) :=
  ⟨⟨by decide, by decide⟩,
   (C9_output_series wScn9 wOut9 (by decide) (by decide)).1⟩

/-!
Helper lemmas for the propagation pre-analysis (`may_propagate_from`).
-/

/-- Membership in the integer range helper. -/
theorem mem_intRange (a b x : Int) :
    x ∈ Rectangle.intRange a b ↔ a ≤ x ∧ x < b := by
  unfold Rectangle.intRange
  simp only [List.mem_map, List.mem_range]
  constructor
  · rintro ⟨i, hi, rfl⟩
    omega
  · rintro ⟨h1, h2⟩
    exact ⟨(x - a).toNat, by omega, by omega⟩

/-- Membership in the delta-pair list of the double loop. -/
theorem mem_deltaPairs (r : Int) (dp : Int × Int) :
    dp ∈ deltaPairs r ↔ (-r ≤ dp.1 ∧ dp.1 ≤ r ∧ -r ≤ dp.2 ∧ dp.2 ≤ r) := by
  obtain ⟨dx, dy⟩ := dp
  unfold deltaPairs
  simp only [List.mem_flatMap, List.mem_map, Prod.mk.injEq]
  constructor
  · rintro ⟨a, ha, b, hb, rfl, rfl⟩
    rw [mem_intRange] at ha
    rw [mem_intRange] at hb
    omega
  · rintro ⟨h1, h2, h3, h4⟩
    exact ⟨dx, (mem_intRange _ _ _).mpr (by omega), dy,
      (mem_intRange _ _ _).mpr (by omega), rfl, rfl⟩

/-- `expand` is the fold of the step function over the delta pairs. -/
theorem expand_eq_foldl (scn : Scenario) (r : Int) (cell : Xy)
    (st : List Xy × List Xy) :
    expand scn r cell st = (deltaPairs r).foldl (growStep scn r cell) st := rfl

/-- One step of the growth either keeps the state or adds one qualifying new
neighbour to both the region and the frontier. -/
theorem growStep_cases (scn : Scenario) (r : Int) (cell : Xy)
    (st : List Xy × List Xy) (dp : Int × Int) :
    growStep scn r cell st dp = st ∨
    ∃ n, n = cell + Xy.new dp.1 dp.2 ∧
      (|dp.1 + dp.2| ≤ r ∨ (|dp.1| ≤ 1 ∧ |dp.2| ≤ 1)) ∧
      n ∉ st.1 ∧ scn.grid.contains n ∧ ¬ scn.on_obstacle n ∧
      growStep scn r cell st dp = (n :: st.1, st.2 ++ [n]) := by
  unfold growStep
  dsimp only
  split_ifs with h1 h2
  · exact Or.inr ⟨_, rfl, h1, h2.1, h2.2.1, h2.2.2, rfl⟩
  · exact Or.inl rfl
  · exact Or.inl rfl

/-- A qualifying neighbour is in the region after its own step. -/
theorem growStep_mem_self (scn : Scenario) (r : Int) (cell : Xy)
    (st : List Xy × List Xy) (dp : Int × Int)
    (hrule : |dp.1 + dp.2| ≤ r ∨ (|dp.1| ≤ 1 ∧ |dp.2| ≤ 1))
    (hgrid : scn.grid.contains (cell + Xy.new dp.1 dp.2))
    (hobs : ¬ scn.on_obstacle (cell + Xy.new dp.1 dp.2)) :
    cell + Xy.new dp.1 dp.2 ∈ (growStep scn r cell st dp).1 := by
  unfold growStep
  dsimp only
  split_ifs with h1 h1
  · exact List.mem_cons_self _ _
  · by_cases hin : cell + Xy.new dp.1 dp.2 ∈ st.1
    · exact hin
    · exact absurd ⟨hin, hgrid, hobs⟩ h1

/-- The region only grows along the fold. -/
theorem growFold_region_mono (scn : Scenario) (r : Int) (cell : Xy) :
    ∀ (l : List (Int × Int)) (st : List Xy × List Xy) (x : Xy), x ∈ st.1 →
      x ∈ (l.foldl (growStep scn r cell) st).1 := by
  intro l
  induction l with
  | nil => exact fun st x hx => hx
  | cons dp l ih =>
    intro st x hx
    rw [List.foldl_cons]
    apply ih
    rcases growStep_cases scn r cell st dp with h | ⟨n, -, -, -, -, -, h⟩ <;>
      rw [h]
    · exact hx
    · exact List.mem_cons_of_mem n hx

/-- The frontier only grows along the fold. -/
theorem growFold_frontier_mono (scn : Scenario) (r : Int) (cell : Xy) :
    ∀ (l : List (Int × Int)) (st : List Xy × List Xy) (x : Xy), x ∈ st.2 →
      x ∈ (l.foldl (growStep scn r cell) st).2 := by
  intro l
  induction l with
  | nil => exact fun st x hx => hx
  | cons dp l ih =>
    intro st x hx
    rw [List.foldl_cons]
    apply ih
    rcases growStep_cases scn r cell st dp with h | ⟨n, -, -, -, -, -, h⟩ <;>
      rw [h]
    · exact hx
    · exact List.mem_append.mpr (Or.inl hx)

/-- Every frontier entry after the fold was already queued or is in the new
region. -/
theorem growFold_frontier_sub (scn : Scenario) (r : Int) (cell : Xy) :
    ∀ (l : List (Int × Int)) (st : List Xy × List Xy) (x : Xy),
      x ∈ (l.foldl (growStep scn r cell) st).2 →
      x ∈ st.2 ∨ x ∈ (l.foldl (growStep scn r cell) st).1 := by
  intro l
  induction l with
  | nil => exact fun st x hx => Or.inl hx
  | cons dp l ih =>
    intro st x hx
    rw [List.foldl_cons] at hx ⊢
    rcases ih (growStep scn r cell st dp) x hx with hx2 | hx2
    · rcases growStep_cases scn r cell st dp with h | ⟨n, -, -, -, -, -, h⟩
      · rw [h] at hx2
        exact Or.inl hx2
      · rw [h] at hx2
        rcases List.mem_append.mp hx2 with hx3 | hx3
        · exact Or.inl hx3
        · refine Or.inr (growFold_region_mono scn r cell l _ x ?_)
          rw [h]
          simp at hx3
          simp [hx3]
    · exact Or.inr hx2

/-- Every region entry after the fold was already present or is a qualifying
neighbour of the expanded cell. -/
theorem growFold_region_new (scn : Scenario) (r : Int) (cell : Xy) :
    ∀ (l : List (Int × Int)) (st : List Xy × List Xy) (x : Xy),
      x ∈ (l.foldl (growStep scn r cell) st).1 →
      x ∈ st.1 ∨ ∃ dp ∈ l, x = cell + Xy.new dp.1 dp.2 ∧
        (|dp.1 + dp.2| ≤ r ∨ (|dp.1| ≤ 1 ∧ |dp.2| ≤ 1)) ∧
        scn.grid.contains x ∧ ¬ scn.on_obstacle x := by
  intro l
  induction l with
  | nil => exact fun st x hx => Or.inl hx
  | cons dp l ih =>
    intro st x hx
    rw [List.foldl_cons] at hx
    rcases ih (growStep scn r cell st dp) x hx with hx2 | ⟨dp2, hdp2, hrest⟩
    · rcases growStep_cases scn r cell st dp with h | ⟨n, hn, hrule, -, hgrid, hobs, h⟩
      · rw [h] at hx2
        exact Or.inl hx2
      · rw [h] at hx2
        rcases List.mem_cons.mp hx2 with rfl | hx3
        · exact Or.inr ⟨dp, List.mem_cons_self dp l, hn, hrule, hn ▸ hgrid, hn ▸ hobs⟩
        · exact Or.inl hx3
    · exact Or.inr ⟨dp2, List.mem_cons_of_mem dp hdp2, hrest⟩

/-- Every qualifying neighbour of the expanded cell is in the region after the
fold. -/
theorem growFold_complete (scn : Scenario) (r : Int) (cell : Xy) :
    ∀ (l : List (Int × Int)) (st : List Xy × List Xy) (dp : Int × Int),
      dp ∈ l →
      (|dp.1 + dp.2| ≤ r ∨ (|dp.1| ≤ 1 ∧ |dp.2| ≤ 1)) →
      scn.grid.contains (cell + Xy.new dp.1 dp.2) →
      ¬ scn.on_obstacle (cell + Xy.new dp.1 dp.2) →
      cell + Xy.new dp.1 dp.2 ∈ (l.foldl (growStep scn r cell) st).1 := by
  intro l
  induction l with
  | nil =>
    intro st dp hmem
    simp at hmem
  | cons dp' l ih =>
    intro st dp hmem hrule hgrid hobs
    rw [List.foldl_cons]
    rcases List.mem_cons.mp hmem with rfl | hmem'
    · exact growFold_region_mono scn r cell l _ _
        (growStep_mem_self scn r cell st dp hrule hgrid hobs)
    · exact ih _ dp hmem' hrule hgrid hobs

/-- A region entry that is new relative to the pre-fold state is queued on the
frontier. -/
theorem growFold_new_frontier (scn : Scenario) (r : Int) (cell : Xy) :
    ∀ (l : List (Int × Int)) (st : List Xy × List Xy) (x : Xy),
      x ∈ (l.foldl (growStep scn r cell) st).1 → x ∉ st.1 →
      x ∈ (l.foldl (growStep scn r cell) st).2 := by
  intro l
  induction l with
  | nil => exact fun st x hx hnx => absurd hx hnx
  | cons dp l ih =>
    intro st x hx hnx
    rw [List.foldl_cons] at hx ⊢
    by_cases hx2 : x ∈ (growStep scn r cell st dp).1
    · rcases growStep_cases scn r cell st dp with h | ⟨n, -, -, -, -, -, h⟩
      · rw [h] at hx2
        exact absurd hx2 hnx
      · rw [h] at hx2
        rcases List.mem_cons.mp hx2 with rfl | hx3
        · apply growFold_frontier_mono scn r cell l _ x
          rw [h]
          exact List.mem_append.mpr (Or.inr (List.mem_cons_self x []))
        · exact absurd hx3 hnx
    · exact ih _ x hx hx2

/-- Witness for C5: a susceptible breather next to an infectious cougher gets
infected by the infection pass. -/
theorem C5_witness :
    (1 < wInfPop.length ∧ triggers 1 wInfPop 1) ∧
    Slug.getP (Slug.infect_all 1 wInfPop) 1 = (Slug.getP wInfPop 1).infect :=
  ⟨⟨by decide, ⟨0, by decide, by decide, by decide, by decide, by decide, by decide⟩⟩,
   (C5_infection_resolution 1 wInfPop).2.1 1 (by decide)
     ⟨0, by decide, by decide, by decide, by decide, by decide, by decide⟩⟩

/-- The initialization loop seeds region and frontier with exactly the
non-obstacle cells of the target rectangle. -/
theorem init_state_eq (scn : Scenario) (target : Rectangle) :
    init_state scn target =
      ((baseCells scn target).reverse, baseCells scn target) := by
  have key : ∀ (l : List Xy) (st : List Xy × List Xy),
      l.foldl
        (fun st c =>
          if ¬ scn.on_obstacle c then (c :: st.1, st.2 ++ [c]) else st) st =
      ((l.filter fun c => !scn.on_obstacle c).reverse ++ st.1,
       st.2 ++ (l.filter fun c => !scn.on_obstacle c)) := by
    intro l
    induction l with
    | nil => intro st; simp
    | cons c l ih =>
      intro st
      rw [List.foldl_cons, ih]
      by_cases hc : scn.on_obstacle c
      · rw [if_neg (by simp [hc]), List.filter_cons_of_neg (by simp [hc])]
      · rw [if_pos (by simp [hc]), List.filter_cons_of_pos (by simp [hc])]
        simp
  unfold init_state baseCells
  rw [key]
  simp

/-- The initial worklist state satisfies the invariant. -/
theorem GoodState_init (scn : Scenario) (r : Int) (target : Rectangle) :
    GoodState scn r (baseCells scn target) (init_state scn target).1
      (init_state scn target).2 := by
  rw [init_state_eq]
  refine ⟨?_, ?_, ?_, ?_⟩
  · intro x hx
    exact List.mem_reverse.mpr hx
  · intro x hx
    exact CodeReach.base x (List.mem_reverse.mp hx)
  · intro x hx
    exact List.mem_reverse.mpr hx
  · intro x hx hnx
    exact absurd (List.mem_reverse.mp hx) hnx

/-- With an empty frontier, the invariant forces the region to coincide with
the code's reachability closure. -/
theorem closed_region_eq (scn : Scenario) (r : Int) (base region : List Xy)
    (hgood : GoodState scn r base region []) :
    ∀ x, x ∈ region ↔ CodeReach scn r base x := by
  intro x
  constructor
  · exact hgood.2.1 x
  · intro hreach
    induction hreach with
    | base c hc => exact hgood.2.2.1 c hc
    | step c dx dy hc h1 h2 h3 h4 hrule hgrid hobs ih =>
      exact hgood.2.2.2 c ih (List.not_mem_nil c) dx dy h1 h2 h3 h4 hrule
        hgrid hobs

/-- Expanding the last frontier cell (the popped one) preserves the worklist
invariant. -/
theorem GoodState_expand (scn : Scenario) (r : Int) (base region : List Xy)
    (f0 : Xy) (fs : List Xy)
    (hgood : GoodState scn r base region (f0 :: fs)) :
    GoodState scn r base
      (expand scn r ((f0 :: fs).getLast (List.cons_ne_nil f0 fs))
        (region, (f0 :: fs).dropLast)).1
      (expand scn r ((f0 :: fs).getLast (List.cons_ne_nil f0 fs))
        (region, (f0 :: fs).dropLast)).2 := by
  obtain ⟨hfr, hsound, hbase, hclosed⟩ := hgood
  rw [expand_eq_foldl]
  set cell := (f0 :: fs).getLast (List.cons_ne_nil f0 fs) with hc
  have hcellmem : cell ∈ f0 :: fs := List.getLast_mem (List.cons_ne_nil f0 fs)
  have hmemsplit : ∀ x : Xy,
      x ∈ f0 :: fs ↔ x ∈ (f0 :: fs).dropLast ∨ x = cell := by
    intro x
    conv_lhs => rw [← List.dropLast_append_getLast (List.cons_ne_nil f0 fs)]
    simp [List.mem_append, hc]
  refine ⟨?_, ?_, ?_, ?_⟩
  · intro x hx
    rcases growFold_frontier_sub scn r cell (deltaPairs r)
        (region, (f0 :: fs).dropLast) x hx with hx2 | hx2
    · exact growFold_region_mono scn r cell (deltaPairs r) _ x
        (hfr x ((hmemsplit x).mpr (Or.inl hx2)))
    · exact hx2
  · intro x hx
    rcases growFold_region_new scn r cell (deltaPairs r) _ x hx with
      hx2 | ⟨dp, hdp, hxeq, hrule, hgrid, hobs⟩
    · exact hsound x hx2
    · rw [mem_deltaPairs] at hdp
      rw [hxeq] at hgrid hobs ⊢
      exact CodeReach.step cell dp.1 dp.2 (hsound cell (hfr cell hcellmem))
        hdp.1 hdp.2.1 hdp.2.2.1 hdp.2.2.2 hrule hgrid hobs
  · intro x hx
    exact growFold_region_mono scn r cell (deltaPairs r) _ x (hbase x hx)
  · intro x hx hnx dx dy hdx1 hdx2 hdy1 hdy2 hrule hgrid hobs
    by_cases hxr : x ∈ region
    · by_cases hxf : x ∈ f0 :: fs
      · rcases (hmemsplit x).mp hxf with hdl | rfl
        · exact absurd (growFold_frontier_mono scn r cell (deltaPairs r)
            (region, (f0 :: fs).dropLast) x hdl) hnx
        · exact growFold_complete scn r cell (deltaPairs r)
            (region, (f0 :: fs).dropLast) (dx, dy)
            ((mem_deltaPairs r (dx, dy)).mpr ⟨hdx1, hdx2, hdy1, hdy2⟩)
            hrule hgrid hobs
      · exact growFold_region_mono scn r cell (deltaPairs r) _ _
          (hclosed x hxr hxf dx dy hdx1 hdx2 hdy1 hdy2 hrule hgrid hobs)
    · exact absurd (growFold_new_frontier scn r cell (deltaPairs r)
        (region, (f0 :: fs).dropLast) x hx hxr) hnx

/-- Whenever the fuelled worklist loop returns from an invariant state, the
returned region is exactly the code's reachability closure. -/
theorem grow_loop_spec (scn : Scenario) (r : Int) (base : List Xy) :
    ∀ (fuel : Nat) (region frontier R : List Xy),
      GoodState scn r base region frontier →
      grow_loop scn r fuel region frontier = some R →
      ∀ x, x ∈ R ↔ CodeReach scn r base x := by
  intro fuel
  induction fuel with
  | zero =>
    intro region frontier R hgood hR x
    cases frontier with
    | nil =>
      have h := Option.some.inj hR
      rw [← h]
      exact closed_region_eq scn r base region hgood x
    | cons f0 fs => exact Option.noConfusion hR
  | succ fuel ih =>
    intro region frontier R hgood hR x
    cases frontier with
    | nil =>
      have h := Option.some.inj hR
      rw [← h]
      exact closed_region_eq scn r base region hgood x
    | cons f0 fs =>
      have hstep : grow_loop scn r (fuel + 1) region (f0 :: fs) =
          grow_loop scn r fuel
            (expand scn r ((f0 :: fs).getLast (List.cons_ne_nil f0 fs))
              (region, (f0 :: fs).dropLast)).1
            (expand scn r ((f0 :: fs).getLast (List.cons_ne_nil f0 fs))
              (region, (f0 :: fs).dropLast)).2 := rfl
      rw [hstep] at hR
      exact ih _ _ R (GoodState_expand scn r base region f0 fs hgood) hR x

/-- C3: **corrected.**  Whenever the worklist of `may_propagate_from` returns,
the result is `true` iff some non-obstacle source cell lies in the region
grown from the target's non-obstacle cells by the rule the code implements:
the deltas range over the box `[-infection_radius, infection_radius]²` and a
delta `(dx, dy)` qualifies when `|dx + dy| ≤ infection_radius` or both
`|dx| ≤ 1` and `|dy| ≤ 1` — not, as the claim words it, when
`|dx| + |dy| ≤ infection_radius`. -/
theorem C3_may_propagate_characterization (scn : Scenario)
    (source target : Rectangle) (fuel : Nat) (b : Bool)
    (h : may_propagate_from scn source target fuel = some b) :
    b = true ↔ ∃ c ∈ source.cell_list, scn.on_obstacle c = false ∧
      CodeReach scn (scn.parameters.infection_radius : Int)
        (baseCells scn target) c := by
  unfold may_propagate_from at h
  rcases Option.map_eq_some'.mp h with ⟨region, hr, hb⟩
  have hmem := grow_loop_spec scn (scn.parameters.infection_radius : Int)
    (baseCells scn target) fuel (init_state scn target).1
    (init_state scn target).2 region
    (GoodState_init scn (scn.parameters.infection_radius : Int) target) hr
  constructor
  · intro hbtrue
    rw [hbtrue] at hb
    simp only [List.any_eq_true, Bool.and_eq_true, Bool.not_eq_true',
      decide_eq_true_eq] at hb
    obtain ⟨c, hc, hobs, hcr⟩ := hb
    exact ⟨c, hc, hobs, (hmem c).mp hcr⟩
  · rintro ⟨c, hc, hobs, hreach⟩
    rw [← hb]
    simp only [List.any_eq_true, Bool.and_eq_true, Bool.not_eq_true',
      decide_eq_true_eq]
    exact ⟨c, hc, hobs, (hmem c).mpr hreach⟩

/-- In the counterexample scenario the only in-grid non-obstacle cells are
`(2, 0)` and `(0, 2)`. -/
theorem cScn_cells (v : Xy) (hg : cScn.grid.contains v = true)
    (ho : ¬ cScn.on_obstacle v = true) :
    v = Xy.new 2 0 ∨ v = Xy.new 0 2 := by
  obtain ⟨vx, vy⟩ := v
  have hb : 0 ≤ vx ∧ vx < 3 ∧ 0 ≤ vy ∧ vy < 3 := by
    have hge : cScn.grid = ⟨⟨0, 0⟩, ⟨3, 3⟩, ⟨3, 3⟩⟩ := rfl
    rw [hge] at hg
    simp only [Rectangle.contains, Bool.and_eq_true, decide_eq_true_eq] at hg
    exact ⟨hg.1.1.1, hg.1.1.2, hg.1.2, hg.2⟩
  obtain ⟨h1, h2, h3, h4⟩ := hb
  interval_cases vx <;> interval_cases vy <;> revert ho <;> decide

/-- In the counterexample scenario the spec-worded growth rule never leaves
the target cell `(2, 0)`: the only other non-obstacle cell `(0, 2)` sits at
Manhattan distance 4 with both delta components of magnitude 2. -/
theorem cSpec_confined (x : Xy)
    (h : SpecReach cScn cScn.parameters.infection_radius
      (baseCells cScn cTarget) x) :
    x = Xy.new 2 0 := by
  induction h with
  | base c hc =>
    have hbase : baseCells cScn cTarget = [Xy.new 2 0] := by decide
    rw [hbase] at hc
    simpa using hc
  | step c dx dy hc hrule hgrid hobs ih =>
    subst ih
    rcases cScn_cells _ hgrid hobs with h2 | h2
    · exact h2
    · exfalso
      have hx : (2 : Int) + dx = 0 := congrArg Xy.x h2
      have hy : (0 : Int) + dy = 2 := congrArg Xy.y h2
      have hr2 : cScn.parameters.infection_radius = 2 := rfl
      rw [hr2] at hrule
      rcases hrule with h3 | ⟨h4, h5⟩
      · omega
      · rw [abs_le] at h4 h5
        omega

/-- Counterexample for C3 as worded: in `cScn` (infection radius 2, the only
non-obstacle cells being `(2, 0)` and `(0, 2)`) the code reports possible
propagation from the source `{(0, 2)}` to the target `{(2, 0)}`, although the
claim's growth rule `|dx| + |dy| ≤ infection_radius` (or the Chebyshev
clause) grows no region beyond the target cell, so no source cell is
spec-reachable. -/
theorem C3_counterexample :
    may_propagate_from cScn cSource cTarget 20 = some true ∧
    ¬ ∃ c ∈ cSource.cell_list, cScn.on_obstacle c = false ∧
      SpecReach cScn cScn.parameters.infection_radius
        (baseCells cScn cTarget) c := by
  refine ⟨by decide, ?_⟩
  rintro ⟨c, hc, -, hreach⟩
  have hconf := cSpec_confined c hreach
  subst hconf
  revert hc
  decide

/-- Witness for C3 at the concrete propagation example: the loop returns
`some true` and the characterization exhibits a code-reachable source cell. -/
theorem C3_witness :
    may_propagate_from cScn cSource cTarget 20 = some true ∧
    (true = true ↔ ∃ c ∈ cSource.cell_list, cScn.on_obstacle c = false ∧
      CodeReach cScn (cScn.parameters.infection_radius : Int)
        (baseCells cScn cTarget) c) :=
  ⟨by decide,
   C3_may_propagate_characterization cScn cSource cTarget 20 true (by decide)⟩

end SpreadSim

